import Mathlib

/-!
Verification development for the bounding-box operators of temporal types
(`meos/src/general/temporal_boxops.c`).

The embedding models temporal number instants as pairs of an integer value
(the Datum of a temporal integer) and an integer timestamp.  Spans and
temporal boxes (`Span`, `TBox`) follow the C structures; the C `TBox` stores
the time span (`period`) as its first member, followed by the value span and
the dimension flags, and the field order below mirrors that layout.

External collaborators that live outside the given source file
(`span_set`, `span_expand`, `tbox_expand`, the box comparators and the
spatial geometry routines) are modelled from the spec, as marked on
each of their doc comments.
-/

/-- Interpolation modes of a temporal sequence (C enum `interpType`). -/
inductive interpType where
  | DISCRETE : interpType
  | STEP : interpType
  | LINEAR : interpType
deriving DecidableEq, Repr

/-- A temporal number instant: a (value, timestamp) pair (C `TInstant`
restricted to the number payload used by the box functions). -/
structure TInstant where
  value : Int
  t : Int
deriving DecidableEq, Repr

instance : Inhabited TInstant := ⟨⟨0, 0⟩⟩

/-- A span over integers with bound-inclusivity flags (C `Span`). -/
@[ext] structure Span where
  lower : Int
  upper : Int
  lower_inc : Bool
  upper_inc : Bool
deriving DecidableEq, Repr

instance : Inhabited Span := ⟨⟨0, 0, true, true⟩⟩

/-- A temporal box (C `TBox`): time span first (as in the C layout), then the
value span, then the dimension-presence flags. -/
@[ext] structure TBox where
  period : Span
  span : Span
  xflag : Bool
  tflag : Bool
deriving DecidableEq, Repr

instance : Inhabited TBox := ⟨⟨default, default, true, true⟩⟩

/-- Modelled from the spec: `makeInterval` (§6, scalar interval primitive,
C `span_set`): plain interval construction from bounds and inclusivity
flags.  The C type tags (`basetype`, `spantype`) are dropped, the embedding
being monomorphic over integer values. -/
def span_set (lo hi : Int) (lower_inc upper_inc : Bool) : Span :=
  ⟨lo, hi, lower_inc, upper_inc⟩

/-- Modelled from the spec: `mergeBoxInPlace` at the span level (§6,
C `span_expand(s1, s2)` which unions `s1` into `s2`): minimum of the lower
bounds, maximum of the upper bounds, OR of inclusivity at touching bounds. -/
def span_expand (s1 s2 : Span) : Span :=
  { lower := min s1.lower s2.lower
    upper := max s1.upper s2.upper
    lower_inc :=
      if s1.lower < s2.lower then s1.lower_inc
      else if s2.lower < s1.lower then s2.lower_inc
      else (s1.lower_inc || s2.lower_inc)
    upper_inc :=
      if s2.upper < s1.upper then s1.upper_inc
      else if s1.upper < s2.upper then s2.upper_inc
      else (s1.upper_inc || s2.upper_inc) }

/-- Modelled from the spec: `mergeBoxInPlace` (§6, C `tbox_expand(box1, box2)`
which unions `box1` into `box2`): dimension-wise span union on the dimensions
the target box has. -/
def tbox_expand (box1 box2 : TBox) : TBox :=
  { period := if box2.tflag then span_expand box1.period box2.period else box2.period
    span := if box2.xflag then span_expand box1.span box2.span else box2.span
    xflag := box2.xflag
    tflag := box2.tflag }

/-- `tnumberinst_set_tbox`: the box of one temporal number instant, with a
degenerate inclusive value span and time span and both dimension flags set. -/
def tnumberinst_set_tbox (inst : TInstant) : TBox :=
  { period := span_set inst.t inst.t true true
    span := span_set inst.value inst.value true true
    xflag := true
    tflag := true }

/-! ### The min/max scan of `tnumberinstarr_set_tbox` -/

/-- The running state of the value scan in `tnumberinstarr_set_tbox`:
current minimum and maximum value and their inclusivity bits. -/
structure MMSt where
  min : Int
  max : Int
  min_inc : Bool
  max_inc : Bool
deriving DecidableEq, Repr

/-- One iteration of the loop body of `tnumberinstarr_set_tbox` at input
index `i` (for `1 <= i < count`) with value `v`:
`min_cmp <= 0` updates the minimum (OR-ing inclusivity on ties), and
symmetrically for the maximum; an interior index contributes an inclusive
bound, the final index contributes `upper_inc1`. -/
def mmStep (count : Nat) (upper_inc1 : Bool) (s : MMSt) (i : Nat) (v : Int) : MMSt :=
  let contrib : Bool := if i < count - 1 then true else upper_inc1
  { min := if v ≤ s.min then v else s.min
    min_inc :=
      if v < s.min then contrib
      else if v = s.min then (s.min_inc || contrib)
      else s.min_inc
    max := if s.max ≤ v then v else s.max
    max_inc :=
      if s.max < v then contrib
      else if v = s.max then (s.max_inc || contrib)
      else s.max_inc }

/-- The value scan loop of `tnumberinstarr_set_tbox` over the indexed values
of the instants at positions `1 .. count-1`. -/
def mmLoop (count : Nat) (upper_inc1 : Bool) (s : MMSt) :
    List (Nat × Int) → MMSt
  | [] => s
  | p :: rest => mmLoop count upper_inc1 (mmStep count upper_inc1 s p.1 p.2) rest

/-- `tnumberinstarr_set_tbox`: the temporal box of an array of temporal
number instants with the given time-bound inclusivity flags and
interpolation.  For non-Linear interpolation both value-inclusivity seeds
are forced true; a degenerate value span (min = max) is forced inclusive on
both sides; the time span keeps the sequence's own flags. -/
def tnumberinstarr_set_tbox (instants : List TInstant)
    (lower_inc upper_inc : Bool) (interp : interpType) : TBox :=
  let count := instants.length
  let lower_inc1 := if interp = interpType.LINEAR then lower_inc else true
  let upper_inc1 := if interp = interpType.LINEAR then upper_inc else true
  let v0 := (instants.headD default).value
  let sF := mmLoop count upper_inc1 ⟨v0, v0, lower_inc1, lower_inc1⟩
    ((List.range (count - 1)).map
      (fun d => (d + 1, (instants.getD (d + 1) default).value)))
  let min_inc := if sF.min = sF.max then true else sF.min_inc
  let max_inc := if sF.min = sF.max then true else sF.max_inc
  { period := span_set (instants.headD default).t (instants.getLastD default).t
      lower_inc upper_inc
    span := span_set sF.min sF.max min_inc max_inc
    xflag := true
    tflag := true }

/-- `tinstarr_compute_bbox` for the temporal-number dispatch arm: compute the
box via `tnumberinstarr_set_tbox`, then (re)write the period's inclusivity
flags, as the generic epilogue of the C function does through the leading
`Span` member of the box. -/
def tinstarr_compute_bbox_num (instants : List TInstant)
    (lower_inc upper_inc : Bool) (interp : interpType) : TBox :=
  let b := tnumberinstarr_set_tbox instants lower_inc upper_inc interp
  { b with period := { b.period with lower_inc := lower_inc, upper_inc := upper_inc } }


/-! ### Temporal sequences and sequence sets -/

/-- A temporal number sequence (C `TSequence`): an ordered list of instants,
the period's bound-inclusivity flags, and the interpolation mode. -/
structure TSequence where
  instants : List TInstant
  lower_inc : Bool
  upper_inc : Bool
  interp : interpType
deriving DecidableEq, Repr

instance : Inhabited TSequence := ⟨⟨[], true, true, interpType.LINEAR⟩⟩

/-- A temporal number sequence set (C `TSequenceSet`): an ordered list of
sequences and the interpolation flag of the set. -/
structure TSequenceSet where
  sequences : List TSequence
  interp : interpType
deriving DecidableEq, Repr

/-- `ss->totalcount`: the total number of instants across the members of a
sequence set (stored as a field in C, an invariant of the structure). -/
def totalcount (ss : TSequenceSet) : Nat :=
  (ss.sequences.map (fun s => s.instants.length)).sum

/-! ### Boxes functions (box-count partitioning) -/

/-- Merge a list of boxes into an accumulator box, one `tbox_expand` at a
time, exactly as the C loops do with `result[k]` as the target. -/
def foldExpand (z : TBox) (l : List TBox) : TBox :=
  l.foldl (fun acc b => tbox_expand b acc) z

/-- The box the grouped loops build for instants `i .. j`: seeded with the
box of instant `i` and expanded with the boxes of instants `i+1 .. j`. -/
def instRangeBox (insts : List TInstant) (i j : Nat) : TBox :=
  foldExpand (tnumberinst_set_tbox (insts.getD i default))
    ((List.range (j - i)).map
      (fun d => tnumberinst_set_tbox (insts.getD (i + 1 + d) default)))

/-- The box of elementary segment `s` (instants `s` and `s+1`), as built by
the finest-granularity branch of `tnumberseq_cont_tboxes_iter`: seeded with
the box of instant `s`, expanded with the box of instant `s+1`. -/
def segBox (insts : List TInstant) (s : Nat) : TBox :=
  tbox_expand (tnumberinst_set_tbox (insts.getD (s + 1) default))
    (tnumberinst_set_tbox (insts.getD s default))

/-- The union of the elementary-segment boxes of segments `i .. j-1`, seeded
with the box of the first segment of the group. -/
def segUnion (insts : List TInstant) (i j : Nat) : TBox :=
  foldExpand (segBox insts i)
    ((List.range (j - i - 1)).map (fun d => segBox insts (i + 1 + d)))

/-- The grouped-partitioning loop shared by the `else` branches of
`tnumberseq_disc_tboxes_iter` and `tnumberseq_cont_tboxes_iter`: starting at
output index `k` and input index `i`, each group takes `size` units, plus
one more while `k < remainder`; the group's box merges the instants
`i .. j`.  The fuel is `max_count - k`, the number of boxes still due. -/
def contGroupLoop (insts : List TInstant) (size rem : Nat) :
    Nat → Nat → Nat → List TBox
  | 0, _k, _i => []
  | fuel + 1, k, i =>
    let j := i + size + (if k < rem then 1 else 0)
    instRangeBox insts i j :: contGroupLoop insts size rem fuel (k + 1) j

/-- `tnumberseq_disc_tboxes_iter`: boxes of a discrete-interpolation sequence
with at least 2 instants.  At finest granularity the C code fills one box
per instant (`count` boxes) but returns `nsegs = count - 1`, so the reported
prefix of the output array drops the final instant's box (and the extra
write lands past the `count - 1` entries `tnumberseq_tboxes` allocates when
`max_count < 1`); the reported boxes are modelled with `take nsegs`. -/
def tnumberseq_disc_tboxes_iter (seq : TSequence) (max_count : Int) : List TBox :=
  let nsegs := seq.instants.length - 1
  if max_count < 1 ∨ (nsegs : Int) ≤ max_count then
    (seq.instants.map tnumberinst_set_tbox).take nsegs
  else
    contGroupLoop seq.instants (nsegs / max_count.toNat) (nsegs % max_count.toNat)
      max_count.toNat 0 0

/-- `tnumberseq_cont_tboxes_iter`: boxes of a continuous-interpolation
(step or linear) sequence with at least 2 instants: one box per segment at
finest granularity, otherwise `max_count` groups of consecutive segments. -/
def tnumberseq_cont_tboxes_iter (seq : TSequence) (max_count : Int) : List TBox :=
  let nsegs := seq.instants.length - 1
  if max_count < 1 ∨ (nsegs : Int) ≤ max_count then
    (List.range nsegs).map (fun i => segBox seq.instants i)
  else
    contGroupLoop seq.instants (nsegs / max_count.toNat) (nsegs % max_count.toNat)
      max_count.toNat 0 0

/-- `tnumberseq_tboxes_iter`: one box for an instantaneous sequence,
otherwise dispatch on the interpolation. -/
def tnumberseq_tboxes_iter (seq : TSequence) (max_count : Int) : List TBox :=
  if seq.instants.length = 1 then
    [tnumberinst_set_tbox (seq.instants.headD default)]
  else if seq.interp = interpType.DISCRETE then
    tnumberseq_disc_tboxes_iter seq max_count
  else
    tnumberseq_cont_tboxes_iter seq max_count

/-- `tnumberseq_tboxes`: the reported boxes of a temporal number sequence
(the first `count` entries of the C output array, where `count` is the
returned length). -/
def tnumberseq_tboxes (seq : TSequence) (max_count : Int) : List TBox :=
  tnumberseq_tboxes_iter seq max_count

/-- The per-sequence sub-budget of regime (b) of `tnumberseqset_tboxes`:
`(int) (max_count * seq->count * 1.0 / ss->totalcount)`, raised to 1 when it
rounds to 0.  For arguments in `int` range without overflow the C double
computation truncates to the integer floor modelled here. -/
def seqBudget (max_count : Int) (total : Nat) (s : TSequence) : Int :=
  let nboxes_seq := max_count * (s.instants.length : Int) / (total : Int)
  if nboxes_seq = 0 then 1 else nboxes_seq

/-- The single box `tnumberseq_tboxes_iter` produces when called with a
budget of 1, as regime (c) of `tnumberseqset_tboxes` does. -/
def seqBoxOne (s : TSequence) : TBox :=
  (tnumberseq_tboxes_iter s 1).headD default

/-- Regime (c) of `tnumberseqset_tboxes`: merge whole consecutive sequences
into `max_count` groups (`j = i + size - 1`, one more while `k < remainder`);
a singleton group copies the sequence's single box. -/
def seqsetMergeLoop (seqs : List TSequence) (size rem : Nat) :
    Nat → Nat → Nat → List TBox
  | 0, _k, _i => []
  | fuel + 1, k, i =>
    let j := i + size - 1 + (if k < rem then 1 else 0)
    if i < j then
      foldExpand (seqBoxOne (seqs.getD i default))
          ((List.range (j - i)).map (fun d => seqBoxOne (seqs.getD (i + 1 + d) default)))
        :: seqsetMergeLoop seqs size rem fuel (k + 1) (j + 1)
    else
      seqBoxOne (seqs.getD i default)
        :: seqsetMergeLoop seqs size rem fuel (k + 1) (i + 1)

/-- `tnumberseqset_tboxes`: boxes of a temporal number sequence set.  The
C function asserts `MEOS_FLAGS_LINEAR_INTERP(ss->flags)` on entry; the
assertion is modelled by returning `none` for a non-Linear set.  Regime (a)
(`max_count < 1` or `totalcount <= max_count`) partitions every sequence
with the caller's budget; regime (b) (`ss->count <= max_count`) gives each
sequence a proportional sub-budget; regime (c) merges whole sequences. -/
def tnumberseqset_tboxes (ss : TSequenceSet) (max_count : Int) :
    Option (List TBox) :=
  if ss.interp ≠ interpType.LINEAR then none
  else some (
    if max_count < 1 ∨ (totalcount ss : Int) ≤ max_count then
      (ss.sequences.map (fun s => tnumberseq_tboxes_iter s max_count)).flatten
    else if (ss.sequences.length : Int) ≤ max_count then
      (ss.sequences.map
        (fun s => tnumberseq_tboxes_iter s (seqBudget max_count (totalcount ss) s))).flatten
    else
      seqsetMergeLoop ss.sequences (ss.sequences.length / max_count.toNat)
        (ss.sequences.length % max_count.toNat) max_count.toNat 0 0)

/-! ### Incremental expansion vs. full recompute (claim C4 models) -/

/-- `tinstarr_compute_bbox` for the alpha (boolean/text) dispatch arm: a pure
time span over the first and last instants, with the generic epilogue
rewriting the same inclusivity flags. -/
def tinstarr_compute_bbox_alpha (instants : List TInstant)
    (lower_inc upper_inc : Bool) : Span :=
  let s := span_set (instants.headD default).t (instants.getLastD default).t
    lower_inc upper_inc
  { s with lower_inc := lower_inc, upper_inc := upper_inc }

/-- The alpha arm of `tsequence_expand_bbox`: a new span from the first
instant's timestamp to the appended instant's timestamp, keeping the
period's lower flag and forcing the upper flag true. -/
def tsequence_expand_bbox_alpha (first : TInstant) (cached : Span)
    (inst : TInstant) : Span :=
  span_set first.t inst.t cached.lower_inc true

/-- The cached alpha span of a sequence built by appends: the creation box of
the singleton `[i0]` (flags of a valid singleton are inclusive), then one
`tsequence_expand_bbox` per appended instant. -/
def alphaSeqCached (i0 : TInstant) (rest : List TInstant) : Span :=
  rest.foldl (tsequence_expand_bbox_alpha i0) (tinstarr_compute_bbox_alpha [i0] true true)

/-- `tnumberseq_expand_tbox`: expand a cached number box with the box of one
appended instant. -/
def tnumberseq_expand_tbox (cached : TBox) (inst : TInstant) : TBox :=
  tbox_expand (tnumberinst_set_tbox inst) cached

/-- The cached number box of a sequence built by appends: the creation box of
the singleton `[i0]`, then one `tnumberseq_expand_tbox` per appended
instant. -/
def numSeqCached (interp : interpType) (i0 : TInstant) (rest : List TInstant) : TBox :=
  rest.foldl tnumberseq_expand_tbox (tinstarr_compute_bbox_num [i0] true true interp)

/-- `tnumberseqarr_set_tbox`: copy the first sequence's box and expand it
with the boxes of the remaining sequences. -/
def tnumberseqarr_set_tbox (boxes : List TBox) : TBox :=
  (boxes.drop 1).foldl (fun acc b => tbox_expand b acc) (boxes.headD default)

/-- The cached number box of a sequence set built by appends: the creation
box of the singleton set, then one `tsequenceset_expand_bbox` (number arm:
`tbox_expand` of the appended sequence's box) per appended sequence. -/
def numSeqSetCached (b0 : TBox) (brest : List TBox) : TBox :=
  brest.foldl (fun acc b => tbox_expand b acc) (tnumberseqarr_set_tbox [b0])

/-- `tseqarr_set_tstzspan`: the time span of an array of sequences, from the
first period's lower bound to the last period's upper bound. -/
def tseqarr_set_tstzspan (periods : List Span) : Span :=
  span_set (periods.headD default).lower (periods.getLastD default).upper
    (periods.headD default).lower_inc (periods.getLastD default).upper_inc

/-- The cached alpha span of a sequence set built by appends: the creation
span of the singleton set, then one `tsequenceset_expand_bbox` (alpha arm:
`span_expand` of the appended sequence's period) per appended sequence. -/
def alphaSeqSetCached (p0 : Span) (prest : List Span) : Span :=
  prest.foldl (fun acc p => span_expand p acc) (tseqarr_set_tstzspan [p0])

/-- A spatial instant for the spatial payload category: a point with three
spatial coordinates and a timestamp. -/
structure SInstant where
  x : Int
  y : Int
  z : Int
  t : Int
deriving DecidableEq, Repr

instance : Inhabited SInstant := ⟨⟨0, 0, 0, 0⟩⟩

/-- A spatiotemporal box (C `STBox`): time span first (as in the C layout),
then the spatial extents. -/
@[ext] structure STBox where
  period : Span
  xmin : Int
  xmax : Int
  ymin : Int
  ymax : Int
  zmin : Int
  zmax : Int
deriving DecidableEq, Repr

instance : Inhabited STBox := ⟨⟨default, 0, 0, 0, 0, 0, 0⟩⟩

/-- Modelled from the spec: `boxOfSpatialInstant` (§6, C
`tpointinst_set_stbox`, not part of this source file): the degenerate box of
one spatial point with an inclusive degenerate time span. -/
def tpointinst_set_stbox (inst : SInstant) : STBox :=
  ⟨span_set inst.t inst.t true true, inst.x, inst.x, inst.y, inst.y, inst.z, inst.z⟩

/-- Modelled from the spec: `mergeBoxInPlace` for spatiotemporal boxes (§6,
C `stbox_expand(box1, box2)`): dimension-wise union, minimum/maximum on the
spatial extents and span union on the time dimension. -/
def stbox_expand (box1 box2 : STBox) : STBox :=
  { period := span_expand box1.period box2.period
    xmin := min box1.xmin box2.xmin
    xmax := max box1.xmax box2.xmax
    ymin := min box1.ymin box2.ymin
    ymax := max box1.ymax box2.ymax
    zmin := min box1.zmin box2.zmin
    zmax := max box1.zmax box2.zmax }

/-- Modelled from the spec: `boxOfSpatialInstantArray` (§4.3, §6, C
`tpointinstarr_set_stbox`, not part of this source file): one scan for the
spatial extrema over the instant array, the time span running from the
first to the last timestamp. -/
def tpointinstarr_set_stbox (instants : List SInstant) : STBox :=
  let h := instants.headD default
  let rest := instants.drop 1
  { period := span_set h.t (instants.getLastD default).t true true
    xmin := rest.foldl (fun a i => min a i.x) h.x
    xmax := rest.foldl (fun a i => max a i.x) h.x
    ymin := rest.foldl (fun a i => min a i.y) h.y
    ymax := rest.foldl (fun a i => max a i.y) h.y
    zmin := rest.foldl (fun a i => min a i.z) h.z
    zmax := rest.foldl (fun a i => max a i.z) h.z }

/-- `tinstarr_compute_bbox` for the spatial dispatch arm: the geometry
collaborator's array box, with the generic epilogue writing the period's
inclusivity flags through the leading `Span` member. -/
def tinstarr_compute_bbox_spatial (instants : List SInstant)
    (lower_inc upper_inc : Bool) : STBox :=
  let b := tpointinstarr_set_stbox instants
  { b with period := { b.period with lower_inc := lower_inc, upper_inc := upper_inc } }

/-- Modelled from the spec: the spatial arm of `tsequence_expand_bbox` (§4.4,
C `tpointseq_expand_stbox`, not part of this source file): union the
appended instant's box into the cached box. -/
def tpointseq_expand_stbox (cached : STBox) (inst : SInstant) : STBox :=
  stbox_expand (tpointinst_set_stbox inst) cached

/-- The cached spatial box of a sequence built by appends. -/
def spatialSeqCached (i0 : SInstant) (rest : List SInstant) : STBox :=
  rest.foldl tpointseq_expand_stbox (tinstarr_compute_bbox_spatial [i0] true true)

/-- Modelled from the spec: `tpointseqarr_set_stbox` (not part of this source
file), the spatial analogue of `tnumberseqarr_set_tbox`: copy the first
sequence's box and expand it with the rest. -/
def tpointseqarr_set_stbox (boxes : List STBox) : STBox :=
  (boxes.drop 1).foldl (fun acc b => stbox_expand b acc) (boxes.headD default)

/-- The cached spatial box of a sequence set built by appends. -/
def spatialSeqSetCached (b0 : STBox) (brest : List STBox) : STBox :=
  brest.foldl (fun acc b => stbox_expand b acc) (tpointseqarr_set_stbox [b0])

/-! ### Bounding box equality and comparison dispatchers -/

/-- Temporal type codes (C `meosType`), restricted to the classification the
dispatchers need; `other` stands for any unrecognized code. -/
inductive meosType where
  | T_TBOOL : meosType
  | T_TTEXT : meosType
  | T_TINT : meosType
  | T_TFLOAT : meosType
  | T_TGEOMPOINT : meosType
  | T_TGEOGPOINT : meosType
  | T_TNPOINT : meosType
  | other : Nat → meosType
deriving DecidableEq, Repr

/-- Modelled from the spec: type classification oracle (§6),
`talpha_type`. -/
def talpha_type : meosType → Bool
  | meosType.T_TBOOL => true
  | meosType.T_TTEXT => true
  | _ => false

/-- Modelled from the spec: type classification oracle (§6),
`tnumber_type`. -/
def tnumber_type : meosType → Bool
  | meosType.T_TINT => true
  | meosType.T_TFLOAT => true
  | _ => false

/-- Modelled from the spec: type classification oracle (§6),
`tspatial_type`. -/
def tspatial_type : meosType → Bool
  | meosType.T_TGEOMPOINT => true
  | meosType.T_TGEOGPOINT => true
  | meosType.T_TNPOINT => true
  | _ => false

/-- Three-way integer comparison. -/
def cmpInt (a b : Int) : Int :=
  if a < b then -1 else if b < a then 1 else 0

/-- Three-way Bool comparison (false before true). -/
def cmpBool (a b : Bool) : Int :=
  cmpInt (if a then 1 else 0) (if b then 1 else 0)

/-- First nonzero of two comparison results (lexicographic chaining). -/
def cmpThen (c1 c2 : Int) : Int :=
  if c1 = 0 then c2 else c1

/-- Modelled from the spec: scalar span three-way comparator (§6, C
`span_cmp_int`): lexicographic over lower bound, lower inclusivity, upper
bound, upper inclusivity. -/
def span_cmp (s1 s2 : Span) : Int :=
  cmpThen (cmpInt s1.lower s2.lower) (cmpThen (cmpBool s1.lower_inc s2.lower_inc)
    (cmpThen (cmpInt s1.upper s2.upper) (cmpBool s1.upper_inc s2.upper_inc)))

/-- Modelled from the spec: span structural equality (§6, C `span_eq_int`). -/
def span_eq (s1 s2 : Span) : Bool :=
  s1 == s2

/-- Modelled from the spec: temporal box total-order comparator (§6, C
`tbox_cmp`): time dimension first, then the value dimension. -/
def tbox_cmp (b1 b2 : TBox) : Int :=
  cmpThen (span_cmp b1.period b2.period) (span_cmp b1.span b2.span)

/-- Modelled from the spec: temporal box structural equality (§6, C
`tbox_eq`). -/
def tbox_eq (b1 b2 : TBox) : Bool :=
  b1 == b2

/-- Modelled from the spec: spatiotemporal box total-order comparator (§6, C
`stbox_cmp`): time dimension first, then the spatial extents. -/
def stbox_cmp (b1 b2 : STBox) : Int :=
  cmpThen (span_cmp b1.period b2.period)
    (cmpThen (cmpInt b1.xmin b2.xmin) (cmpThen (cmpInt b1.xmax b2.xmax)
      (cmpThen (cmpInt b1.ymin b2.ymin) (cmpThen (cmpInt b1.ymax b2.ymax)
        (cmpThen (cmpInt b1.zmin b2.zmin) (cmpInt b1.zmax b2.zmax))))))

/-- A generic bounding box as passed through `void *` in C: one of the three
box shapes. -/
inductive BBoxVal where
  | spanBox : Span → BBoxVal
  | tboxBox : TBox → BBoxVal
  | stboxBox : STBox → BBoxVal
deriving DecidableEq, Repr

/-- Read a generic box at span type (the C cast `(Span *) box`). -/
def BBoxVal.asSpan : BBoxVal → Span
  | BBoxVal.spanBox s => s
  | _ => default

/-- Read a generic box at temporal box type (the C cast `(TBox *) box`). -/
def BBoxVal.asTBox : BBoxVal → TBox
  | BBoxVal.tboxBox b => b
  | _ => default

/-- Read a generic box at spatiotemporal box type (the C cast
`(STBox *) box`). -/
def BBoxVal.asSTBox : BBoxVal → STBox
  | BBoxVal.stboxBox b => b
  | _ => default

/-- Result of a dispatcher that may raise `meos_error` with
`MEOS_ERR_INTERNAL_TYPE_ERROR`: the reported offending type code, if any,
and the returned value. -/
structure MeosResult (α : Type) where
  error : Option meosType
  ret : α
deriving DecidableEq, Repr

/-- C `INT_MAX`, the error sentinel of `temporal_bbox_cmp`. -/
def INT_MAX : Int := 2147483647

/-- `temporal_bbox_eq`: dispatch box equality on the temporal type's
category; for spatial types equality is the three-way comparator collapsing
to zero (the direct `stbox_eq` is commented out in the source because of
floating-point precision); an unknown category reports an internal type
error and returns false. -/
def temporal_bbox_eq (box1 box2 : BBoxVal) (temptype : meosType) :
    MeosResult Bool :=
  if talpha_type temptype then ⟨none, span_eq box1.asSpan box2.asSpan⟩
  else if tnumber_type temptype then ⟨none, tbox_eq box1.asTBox box2.asTBox⟩
  else if tspatial_type temptype then
    ⟨none, decide (stbox_cmp box1.asSTBox box2.asSTBox = 0)⟩
  else ⟨some temptype, false⟩

/-- `temporal_bbox_cmp`: dispatch the three-way box comparison on the
temporal type's category; an unknown category reports an internal type
error and returns `INT_MAX`. -/
def temporal_bbox_cmp (box1 box2 : BBoxVal) (temptype : meosType) :
    MeosResult Int :=
  if talpha_type temptype then ⟨none, span_cmp box1.asSpan box2.asSpan⟩
  else if tnumber_type temptype then ⟨none, tbox_cmp box1.asTBox box2.asTBox⟩
  else if tspatial_type temptype then
    ⟨none, stbox_cmp box1.asSTBox box2.asSTBox⟩
  else ⟨some temptype, INT_MAX⟩

/-! ### Claim-side vocabulary -/

/-- Membership of a scalar in a span, honoring the inclusivity flags. -/
def spanContains (s : Span) (x : Int) : Bool :=
  ((s.lower < x) || (s.lower = x && s.lower_inc)) &&
    ((x < s.upper) || (x = s.upper && s.upper_inc))

/-- Membership of a (value, time) point in a temporal box. -/
def tboxContainsVT (b : TBox) (v t : Int) : Bool :=
  spanContains b.span v && spanContains b.period t

/-- The first segment index of group `m` in the grouped partitioning of
`nsegs` units into `mc` groups: `m` groups of `nsegs / mc` units, plus one
extra unit for each of the first `min m (nsegs % mc)` groups. -/
def groupStart (nsegs mc m : Nat) : Nat :=
  m * (nsegs / mc) + min m (nsegs % mc)

/-- The minimum value of an instant array, scanned exactly as the loop of
`tnumberinstarr_set_tbox` visits it. -/
def seqMinVal (insts : List TInstant) : Int :=
  ((List.range (insts.length - 1)).map
    (fun d => (d + 1, (insts.getD (d + 1) default).value))).foldl
    (fun x p => min x p.2) (insts.headD default).value

/-- The maximum value of an instant array, scanned exactly as the loop of
`tnumberinstarr_set_tbox` visits it. -/
def seqMaxVal (insts : List TInstant) : Int :=
  ((List.range (insts.length - 1)).map
    (fun d => (d + 1, (insts.getD (d + 1) default).value))).foldl
    (fun x p => max x p.2) (insts.headD default).value

/-- A well-formed span: nonempty, with a degenerate span forced inclusive on
both sides. -/
def spanValid (s : Span) : Prop :=
  s.lower < s.upper ∨ (s.lower = s.upper ∧ s.lower_inc = true ∧ s.upper_inc = true)

/-- `s1` ends strictly before `s2` begins (time-disjoint adjacency of the
periods of consecutive sequences in a set). -/
def spanBefore (s1 s2 : Span) : Prop :=
  s1.upper < s2.lower ∨
    (s1.upper = s2.lower ∧ (s1.upper_inc = false ∨ s2.lower_inc = false))

/-! ### Concrete inputs used by scenarios and witnesses -/

/-- The 7-instant Linear sequence of the partitioning scenario (6 segments,
budget 4, groups of sizes 2, 2, 1, 1). -/
def seqC1 : TSequence :=
  ⟨[⟨0, 0⟩, ⟨5, 1⟩, ⟨2, 2⟩, ⟨7, 3⟩, ⟨1, 4⟩, ⟨9, 5⟩, ⟨4, 6⟩], true, true,
    interpType.LINEAR⟩

/-- A two-instant Discrete sequence, the failing input of the discrete
finest-granularity branch. -/
def dseqC2 : TSequence :=
  ⟨[⟨0, 0⟩, ⟨1, 1⟩], true, true, interpType.DISCRETE⟩

/-- A Linear sequence set with instant counts 1, 1 and 7 (totalcount 9). -/
def ssC9 : TSequenceSet :=
  ⟨[⟨[⟨0, 0⟩], true, true, interpType.LINEAR⟩,
    ⟨[⟨0, 10⟩], true, true, interpType.LINEAR⟩,
    ⟨[⟨0, 20⟩, ⟨1, 21⟩, ⟨2, 22⟩, ⟨3, 23⟩, ⟨4, 24⟩, ⟨5, 25⟩, ⟨6, 26⟩], true, true,
      interpType.LINEAR⟩], interpType.LINEAR⟩

/-- A Linear sequence set with instant counts 3, 3 and 3 (totalcount 9). -/
def ssC5 : TSequenceSet :=
  ⟨[⟨[⟨1, 0⟩, ⟨2, 1⟩, ⟨3, 2⟩], true, true, interpType.LINEAR⟩,
    ⟨[⟨4, 10⟩, ⟨5, 11⟩, ⟨6, 12⟩], true, true, interpType.LINEAR⟩,
    ⟨[⟨7, 20⟩, ⟨8, 21⟩, ⟨9, 22⟩], true, true, interpType.LINEAR⟩],
    interpType.LINEAR⟩

/-! ### Semilattice lemmas for the span/box union -/

theorem span_expand_comm (a b c : Span) :
    span_expand a (span_expand b c) = span_expand b (span_expand a c) := by
  ext <;> simp only [span_expand] <;> (try split_ifs) <;>
    first
      | rfl
      | omega
      | simp [Bool.or_comm, Bool.or_left_comm, Bool.or_assoc, Bool.or_self]

theorem span_expand_assoc (a b c : Span) :
    span_expand (span_expand a b) c = span_expand a (span_expand b c) := by
  ext <;> simp only [span_expand] <;> (try split_ifs) <;>
    first
      | rfl
      | omega
      | simp [Bool.or_comm, Bool.or_left_comm, Bool.or_assoc, Bool.or_self]

theorem span_expand_idem (a c : Span) :
    span_expand a (span_expand a c) = span_expand a c := by
  ext <;> simp only [span_expand] <;> (try split_ifs) <;>
    first
      | rfl
      | omega
      | simp [Bool.or_comm, Bool.or_left_comm, Bool.or_assoc, Bool.or_self]

theorem tbox_expand_tgt_flags (a c : TBox) :
    (tbox_expand a c).xflag = c.xflag ∧ (tbox_expand a c).tflag = c.tflag := by
  simp [tbox_expand]

theorem tbox_expand_comm (a b c : TBox) :
    tbox_expand a (tbox_expand b c) = tbox_expand b (tbox_expand a c) := by
  ext : 1 <;> simp only [tbox_expand] <;> split_ifs <;>
    simp [span_expand_comm]

theorem tbox_expand_assoc (a b c : TBox)
    (hbx : b.xflag = true) (hbt : b.tflag = true) :
    tbox_expand (tbox_expand a b) c = tbox_expand a (tbox_expand b c) := by
  ext : 1 <;> simp only [tbox_expand, hbx, hbt, if_true] <;> split_ifs <;>
    simp [span_expand_assoc]

theorem tbox_expand_idem (a c : TBox) :
    tbox_expand a (tbox_expand a c) = tbox_expand a c := by
  ext : 1 <;> simp only [tbox_expand] <;> split_ifs <;>
    simp [span_expand_idem]

/-! ### Characterization of the min/max scan -/

theorem foldl_min_le_init (l : List (Nat × Int)) :
    ∀ a : Int, l.foldl (fun x p => min x p.2) a ≤ a := by
  induction l with
  | nil => intro a; simp
  | cons p rest ih =>
    intro a
    calc rest.foldl (fun x p => min x p.2) (min a p.2) ≤ min a p.2 := ih _
    _ ≤ a := min_le_left _ _

theorem foldl_max_init_le (l : List (Nat × Int)) :
    ∀ a : Int, a ≤ l.foldl (fun x p => max x p.2) a := by
  induction l with
  | nil => intro a; simp
  | cons p rest ih =>
    intro a
    calc a ≤ max a p.2 := le_max_left _ _
    _ ≤ rest.foldl (fun x p => max x p.2) (max a p.2) := ih _

theorem mmStep_min (c : Nat) (u : Bool) (s : MMSt) (i : Nat) (v : Int) :
    (mmStep c u s i v).min = min s.min v := by
  simp only [mmStep]
  rcases le_or_lt v s.min with h | h
  · rw [if_pos h, min_eq_right h]
  · rw [if_neg (not_le.mpr h), min_eq_left (le_of_lt h)]

theorem mmStep_max (c : Nat) (u : Bool) (s : MMSt) (i : Nat) (v : Int) :
    (mmStep c u s i v).max = max s.max v := by
  simp only [mmStep]
  rcases le_or_lt s.max v with h | h
  · rw [if_pos h, max_eq_right h]
  · rw [if_neg (not_le.mpr h), max_eq_left (le_of_lt h)]

theorem mmStep_min_inc_lt (c : Nat) (u : Bool) (s : MMSt) (i : Nat) (v : Int)
    (h : v < s.min) :
    (mmStep c u s i v).min_inc = (if i < c - 1 then true else u) := by
  simp only [mmStep]
  rw [if_pos h]

theorem mmStep_min_inc_eq (c : Nat) (u : Bool) (s : MMSt) (i : Nat) (v : Int)
    (h : v = s.min) :
    (mmStep c u s i v).min_inc = (s.min_inc || (if i < c - 1 then true else u)) := by
  simp only [mmStep]
  rw [if_neg (by omega), if_pos h]

theorem mmStep_min_inc_gt (c : Nat) (u : Bool) (s : MMSt) (i : Nat) (v : Int)
    (h : s.min < v) :
    (mmStep c u s i v).min_inc = s.min_inc := by
  simp only [mmStep]
  rw [if_neg (by omega), if_neg (by omega)]

theorem mmStep_max_inc_gt (c : Nat) (u : Bool) (s : MMSt) (i : Nat) (v : Int)
    (h : s.max < v) :
    (mmStep c u s i v).max_inc = (if i < c - 1 then true else u) := by
  simp only [mmStep]
  rw [if_pos h]

theorem mmStep_max_inc_eq (c : Nat) (u : Bool) (s : MMSt) (i : Nat) (v : Int)
    (h : v = s.max) :
    (mmStep c u s i v).max_inc = (s.max_inc || (if i < c - 1 then true else u)) := by
  simp only [mmStep]
  rw [if_neg (by omega), if_pos h]

theorem mmStep_max_inc_lt (c : Nat) (u : Bool) (s : MMSt) (i : Nat) (v : Int)
    (h : v < s.max) :
    (mmStep c u s i v).max_inc = s.max_inc := by
  simp only [mmStep]
  rw [if_neg (by omega), if_neg (by omega)]

theorem mmLoop_min (c : Nat) (u : Bool) (l : List (Nat × Int)) :
    ∀ s : MMSt, (mmLoop c u s l).min = l.foldl (fun x p => min x p.2) s.min := by
  induction l with
  | nil => intro s; rfl
  | cons p rest ih =>
    intro s
    show (mmLoop c u (mmStep c u s p.1 p.2) rest).min = _
    rw [ih, List.foldl_cons, mmStep_min]

theorem mmLoop_max (c : Nat) (u : Bool) (l : List (Nat × Int)) :
    ∀ s : MMSt, (mmLoop c u s l).max = l.foldl (fun x p => max x p.2) s.max := by
  induction l with
  | nil => intro s; rfl
  | cons p rest ih =>
    intro s
    show (mmLoop c u (mmStep c u s p.1 p.2) rest).max = _
    rw [ih, List.foldl_cons, mmStep_max]

/-- The final minimum-inclusivity bit of the scan is the OR of the seed's bit
(when the seed value is still the overall minimum) and of the contributions
of all scanned occurrences of the overall minimum. -/
theorem mmLoop_min_inc (c : Nat) (u : Bool) :
    ∀ (l : List (Nat × Int)) (s : MMSt) (M : Int),
      M = l.foldl (fun x p => min x p.2) s.min →
      (mmLoop c u s l).min_inc =
        ((decide (s.min = M) && s.min_inc) ||
          l.any (fun p => decide (p.2 = M) && (if p.1 < c - 1 then true else u))) := by
  intro l
  induction l with
  | nil =>
    intro s M hM
    simp at hM
    simp [mmLoop, hM]
  | cons p rest ih =>
    intro s M hM
    simp only [List.foldl_cons] at hM
    have hMle : M ≤ min s.min p.2 := hM ▸ foldl_min_le_init rest _
    have hstep : (mmStep c u s p.1 p.2).min = min s.min p.2 := mmStep_min ..
    have hM' : M = rest.foldl (fun x p => min x p.2) (mmStep c u s p.1 p.2).min := by
      rw [hstep]; exact hM
    show (mmLoop c u (mmStep c u s p.1 p.2) rest).min_inc = _
    rw [ih _ M hM', hstep]
    rcases lt_trichotomy p.2 s.min with h | h | h
    · rw [mmStep_min_inc_lt c u s p.1 p.2 h, min_eq_right (le_of_lt h)]
      have hsM : decide (s.min = M) = false := by
        simp only [decide_eq_false_iff_not]
        omega
      simp only [List.any_cons, hsM, Bool.false_and, Bool.false_or]
    · rw [mmStep_min_inc_eq c u s p.1 p.2 h, h, min_self]
      simp only [List.any_cons, h]
      rcases Decidable.em (s.min = M) with hsM | hsM
      · simp [hsM, Bool.and_or_distrib_left, Bool.or_assoc]
      · simp [hsM]
    · rw [mmStep_min_inc_gt c u s p.1 p.2 h, min_eq_left (le_of_lt h)]
      have hpM : decide (p.2 = M) = false := by
        simp only [decide_eq_false_iff_not]
        omega
      simp [List.any_cons, hpM]

/-- Dual of `mmLoop_min_inc` for the maximum. -/
theorem mmLoop_max_inc (c : Nat) (u : Bool) :
    ∀ (l : List (Nat × Int)) (s : MMSt) (M : Int),
      M = l.foldl (fun x p => max x p.2) s.max →
      (mmLoop c u s l).max_inc =
        ((decide (s.max = M) && s.max_inc) ||
          l.any (fun p => decide (p.2 = M) && (if p.1 < c - 1 then true else u))) := by
  intro l
  induction l with
  | nil =>
    intro s M hM
    simp at hM
    simp [mmLoop, hM]
  | cons p rest ih =>
    intro s M hM
    simp only [List.foldl_cons] at hM
    have hMle : max s.max p.2 ≤ M := hM ▸ foldl_max_init_le rest _
    have hstep : (mmStep c u s p.1 p.2).max = max s.max p.2 := mmStep_max ..
    have hM' : M = rest.foldl (fun x p => max x p.2) (mmStep c u s p.1 p.2).max := by
      rw [hstep]; exact hM
    show (mmLoop c u (mmStep c u s p.1 p.2) rest).max_inc = _
    rw [ih _ M hM', hstep]
    rcases lt_trichotomy s.max p.2 with h | h | h
    · rw [mmStep_max_inc_gt c u s p.1 p.2 h, max_eq_right (le_of_lt h)]
      have hsM : decide (s.max = M) = false := by
        simp only [decide_eq_false_iff_not]
        omega
      simp only [List.any_cons, hsM, Bool.false_and, Bool.false_or]
    · rw [mmStep_max_inc_eq c u s p.1 p.2 h.symm, h, max_self]
      simp only [List.any_cons, h.symm]
      rcases Decidable.em (s.max = M) with hsM | hsM
      · simp [hsM, Bool.and_or_distrib_left, Bool.or_assoc]
      · simp [hsM]
    · rw [mmStep_max_inc_lt c u s p.1 p.2 h, max_eq_left (le_of_lt h)]
      have hpM : decide (p.2 = M) = false := by
        simp only [decide_eq_false_iff_not]
        omega
      simp [List.any_cons, hpM]

/-- With an all-inclusive seed and an inclusive final contribution the scan
keeps both inclusivity bits true. -/
theorem mmLoop_true_incs (c : Nat) :
    ∀ (l : List (Nat × Int)) (s : MMSt),
      s.min_inc = true → s.max_inc = true →
      (mmLoop c true s l).min_inc = true ∧ (mmLoop c true s l).max_inc = true := by
  intro l
  induction l with
  | nil => intro s h1 h2; exact ⟨h1, h2⟩
  | cons p rest ih =>
    intro s h1 h2
    show (mmLoop c true (mmStep c true s p.1 p.2) rest).min_inc = true ∧ _
    refine ih _ ?_ ?_ <;> simp [mmStep, h1, h2]

/-! ### Claim theorems -/

/-- C7: for every spatial temporal type, `temporal_bbox_eq` returns true
exactly when `temporal_bbox_cmp` returns 0: spatial box equality is defined
through the three-way comparator collapsing to zero, and neither dispatcher
takes the error path. -/
theorem C7_spatial_eq_iff_cmp_zero (temptype : meosType)
    (h : tspatial_type temptype = true) (b1 b2 : STBox) :
    (temporal_bbox_eq (BBoxVal.stboxBox b1) (BBoxVal.stboxBox b2) temptype).ret =
      decide ((temporal_bbox_cmp (BBoxVal.stboxBox b1) (BBoxVal.stboxBox b2)
        temptype).ret = 0) ∧
    (temporal_bbox_eq (BBoxVal.stboxBox b1) (BBoxVal.stboxBox b2) temptype).error =
      none ∧
    (temporal_bbox_cmp (BBoxVal.stboxBox b1) (BBoxVal.stboxBox b2) temptype).error =
      none := by
  cases temptype <;>
    simp_all [temporal_bbox_eq, temporal_bbox_cmp, talpha_type, tnumber_type,
      tspatial_type]

/-- Witness for C7 at a concrete spatial type and concrete boxes. -/
theorem C7_witness :
    tspatial_type meosType.T_TGEOMPOINT = true ∧
    (temporal_bbox_eq (BBoxVal.stboxBox ⟨⟨0, 1, true, true⟩, 0, 1, 0, 1, 0, 1⟩)
      (BBoxVal.stboxBox ⟨⟨0, 1, true, true⟩, 0, 1, 0, 1, 0, 2⟩)
      meosType.T_TGEOMPOINT).ret =
      decide ((temporal_bbox_cmp
        (BBoxVal.stboxBox ⟨⟨0, 1, true, true⟩, 0, 1, 0, 1, 0, 1⟩)
        (BBoxVal.stboxBox ⟨⟨0, 1, true, true⟩, 0, 1, 0, 1, 0, 2⟩)
        meosType.T_TGEOMPOINT).ret = 0) :=
  ⟨by decide,
    (C7_spatial_eq_iff_cmp_zero meosType.T_TGEOMPOINT (by decide)
      ⟨⟨0, 1, true, true⟩, 0, 1, 0, 1, 0, 1⟩
      ⟨⟨0, 1, true, true⟩, 0, 1, 0, 1, 0, 2⟩).1⟩

/-- C8: for every type code recognized by none of the three categories, both
dispatchers signal an internal type error naming the offending code and
return their sentinels: `false` for `temporal_bbox_eq` and `INT_MAX`,
distinct from -1, 0 and 1, for `temporal_bbox_cmp`. -/
theorem C8_unknown_category_sentinels (temptype : meosType)
    (h1 : talpha_type temptype = false) (h2 : tnumber_type temptype = false)
    (h3 : tspatial_type temptype = false) (box1 box2 : BBoxVal) :
    temporal_bbox_eq box1 box2 temptype = ⟨some temptype, false⟩ ∧
    temporal_bbox_cmp box1 box2 temptype = ⟨some temptype, INT_MAX⟩ ∧
    INT_MAX ≠ -1 ∧ INT_MAX ≠ 0 ∧ INT_MAX ≠ 1 := by
  refine ⟨?_, ?_, by decide, by decide, by decide⟩ <;>
    simp [temporal_bbox_eq, temporal_bbox_cmp, h1, h2, h3]

/-- Witness for C8 at a concrete unknown type code. -/
theorem C8_witness :
    talpha_type (meosType.other 42) = false ∧
    tnumber_type (meosType.other 42) = false ∧
    tspatial_type (meosType.other 42) = false ∧
    temporal_bbox_eq (BBoxVal.spanBox default) (BBoxVal.spanBox default)
      (meosType.other 42) = ⟨some (meosType.other 42), false⟩ ∧
    temporal_bbox_cmp (BBoxVal.spanBox default) (BBoxVal.spanBox default)
      (meosType.other 42) = ⟨some (meosType.other 42), INT_MAX⟩ :=
  ⟨by decide, by decide, by decide,
    (C8_unknown_category_sentinels (meosType.other 42) (by decide) (by decide)
      (by decide) (BBoxVal.spanBox default) (BBoxVal.spanBox default)).1,
    (C8_unknown_category_sentinels (meosType.other 42) (by decide) (by decide)
      (by decide) (BBoxVal.spanBox default) (BBoxVal.spanBox default)).2.1⟩

/-- C9: a sequence set in regime (b) (`ssCount <= maxCount < totalcount`) for
which `tnumberseqset_tboxes` reports strictly more than `maxCount` boxes:
instant counts 1, 1, 7 with `maxCount = 3` yield 4 boxes. -/
theorem C9_regime_b_exceeds_budget :
    ((ssC9.sequences.length : Int) ≤ 3 ∧ (3 : Int) < (totalcount ssC9 : Int)) ∧
    ∃ l, tnumberseqset_tboxes ssC9 3 = some l ∧ l.length = 4 ∧ 3 < l.length := by
  refine ⟨by decide,
    [⟨⟨0, 0, true, true⟩, ⟨0, 0, true, true⟩, true, true⟩,
     ⟨⟨10, 10, true, true⟩, ⟨0, 0, true, true⟩, true, true⟩,
     ⟨⟨20, 23, true, true⟩, ⟨0, 3, true, true⟩, true, true⟩,
     ⟨⟨23, 26, true, true⟩, ⟨3, 6, true, true⟩, true, true⟩], ?_, ?_, ?_⟩
  · decide
  · decide
  · decide

/-- The grouped loop emits exactly one box per unit of fuel. -/
theorem contGroupLoop_length (insts : List TInstant) (size rem : Nat) :
    ∀ fuel k i, (contGroupLoop insts size rem fuel k i).length = fuel := by
  intro fuel
  induction fuel with
  | zero => intro k i; rfl
  | succ n ih =>
    intro k i
    show (instRangeBox _ _ _ :: contGroupLoop _ _ _ n _ _).length = n + 1
    rw [List.length_cons, ih]

/-- C2 (failing input): on the two-instant Discrete sequence with
`max_count = 0` (finest granularity) the reported boxes are the single box
of the first instant; no reported box contains the final instant's
(value, time) point (1, 1), although the spec requires the union of the
reported boxes to cover every instant. -/
theorem C2_disc_finest_drops_last_instant :
    tnumberseq_tboxes dseqC2 0 = [tnumberinst_set_tbox ⟨0, 0⟩] ∧
    (tnumberseq_tboxes dseqC2 0).any (fun b => tboxContainsVT b 1 1) = false := by
  constructor
  · decide
  · decide

/-- C10: `tnumberseqset_tboxes` asserts Linear interpolation on entry
(modelled as `none` for a non-Linear set), for every budget; the
sequence-level entry point `tnumberseq_tboxes` handles a non-Linear
(Discrete or Stepwise) nonempty sequence, producing a nonempty result. -/
theorem C10_seqset_asserts_linear (ss : TSequenceSet) (mc : Int)
    (hss : ss.interp ≠ interpType.LINEAR)
    (seq : TSequence) (hseq : seq.interp ≠ interpType.LINEAR)
    (hne : seq.instants ≠ []) :
    tnumberseqset_tboxes ss mc = none ∧ tnumberseq_tboxes seq mc ≠ [] := by
  constructor
  · simp [tnumberseqset_tboxes, hss]
  · intro hempty
    have hlen : (tnumberseq_tboxes seq mc).length = 0 := by rw [hempty]; rfl
    have hn : 1 ≤ seq.instants.length := by
      cases h : seq.instants with
      | nil => exact absurd h hne
      | cons a l => simp [h]
    by_cases h1 : seq.instants.length = 1
    · rw [show tnumberseq_tboxes seq mc =
          [tnumberinst_set_tbox (seq.instants.headD default)] by
        simp [tnumberseq_tboxes, tnumberseq_tboxes_iter, h1]] at hempty
      exact List.cons_ne_nil _ _ hempty
    · have h2 : 2 ≤ seq.instants.length := by omega
      have hnsegs : 1 ≤ seq.instants.length - 1 := by omega
      by_cases hd : seq.interp = interpType.DISCRETE
      · have : tnumberseq_tboxes seq mc = tnumberseq_disc_tboxes_iter seq mc := by
          simp [tnumberseq_tboxes, tnumberseq_tboxes_iter, h1, hd]
        rw [this] at hlen
        by_cases hb : mc < 1 ∨ ((seq.instants.length - 1 : Nat) : Int) ≤ mc
        · rw [show tnumberseq_disc_tboxes_iter seq mc =
              (seq.instants.map tnumberinst_set_tbox).take (seq.instants.length - 1) by
            simp only [tnumberseq_disc_tboxes_iter, if_pos hb]] at hlen
          rw [List.length_take, List.length_map] at hlen
          omega
        · rw [show tnumberseq_disc_tboxes_iter seq mc =
              contGroupLoop seq.instants ((seq.instants.length - 1) / mc.toNat)
                ((seq.instants.length - 1) % mc.toNat) mc.toNat 0 0 by
            simp only [tnumberseq_disc_tboxes_iter, if_neg hb]] at hlen
          rw [contGroupLoop_length] at hlen
          push_neg at hb
          omega
      · have : tnumberseq_tboxes seq mc = tnumberseq_cont_tboxes_iter seq mc := by
          simp [tnumberseq_tboxes, tnumberseq_tboxes_iter, h1, hd]
        rw [this] at hlen
        by_cases hb : mc < 1 ∨ ((seq.instants.length - 1 : Nat) : Int) ≤ mc
        · rw [show tnumberseq_cont_tboxes_iter seq mc =
              (List.range (seq.instants.length - 1)).map
                (fun i => segBox seq.instants i) by
            simp only [tnumberseq_cont_tboxes_iter, if_pos hb]] at hlen
          rw [List.length_map, List.length_range] at hlen
          omega
        · rw [show tnumberseq_cont_tboxes_iter seq mc =
              contGroupLoop seq.instants ((seq.instants.length - 1) / mc.toNat)
                ((seq.instants.length - 1) % mc.toNat) mc.toNat 0 0 by
            simp only [tnumberseq_cont_tboxes_iter, if_neg hb]] at hlen
          rw [contGroupLoop_length] at hlen
          push_neg at hb
          omega

/-- Witness for C10: a Stepwise set is rejected while the sequence-level
function partitions the same Stepwise sequence. -/
theorem C10_witness :
    (⟨[⟨[⟨0, 0⟩, ⟨1, 1⟩], true, true, interpType.STEP⟩],
        interpType.STEP⟩ : TSequenceSet).interp ≠ interpType.LINEAR ∧
    tnumberseqset_tboxes
      ⟨[⟨[⟨0, 0⟩, ⟨1, 1⟩], true, true, interpType.STEP⟩], interpType.STEP⟩ 5 =
      none ∧
    tnumberseq_tboxes ⟨[⟨0, 0⟩, ⟨1, 1⟩], true, true, interpType.STEP⟩ 5 ≠ [] :=
  ⟨by decide,
    (C10_seqset_asserts_linear
      ⟨[⟨[⟨0, 0⟩, ⟨1, 1⟩], true, true, interpType.STEP⟩], interpType.STEP⟩ 5
      (by decide) ⟨[⟨0, 0⟩, ⟨1, 1⟩], true, true, interpType.STEP⟩ (by decide)
      (by decide)).1,
    (C10_seqset_asserts_linear
      ⟨[⟨[⟨0, 0⟩, ⟨1, 1⟩], true, true, interpType.STEP⟩], interpType.STEP⟩ 5
      (by decide) ⟨[⟨0, 0⟩, ⟨1, 1⟩], true, true, interpType.STEP⟩ (by decide)
      (by decide)).2⟩

/-- C6: for every non-Linear (Discrete or Stepwise) interpolation and every
combination of the sequence's time-bound flags, the box has both
value-dimension bounds inclusive, while the time dimension keeps the
sequence's own flags. -/
theorem C6_nonlinear_value_bounds_inclusive (insts : List TInstant)
    (li ui : Bool) (interp : interpType) (h : interp ≠ interpType.LINEAR) :
    (tnumberinstarr_set_tbox insts li ui interp).span.lower_inc = true ∧
    (tnumberinstarr_set_tbox insts li ui interp).span.upper_inc = true ∧
    (tnumberinstarr_set_tbox insts li ui interp).period.lower_inc = li ∧
    (tnumberinstarr_set_tbox insts li ui interp).period.upper_inc = ui := by
  have hL : (if interp = interpType.LINEAR then li else true) = true := if_neg h
  have hU : (if interp = interpType.LINEAR then ui else true) = true := if_neg h
  obtain ⟨hm, hM⟩ := mmLoop_true_incs insts.length
    ((List.range (insts.length - 1)).map
      (fun d => (d + 1, (insts.getD (d + 1) default).value)))
    ⟨(insts.headD default).value, (insts.headD default).value, true, true⟩ rfl rfl
  refine ⟨?_, ?_, ?_, ?_⟩ <;>
    simp only [tnumberinstarr_set_tbox, hL, hU, span_set]
  · rw [hm, ite_self]
  · rw [hM, ite_self]

/-- Witness for C6 at a Stepwise sequence with both time bounds exclusive. -/
theorem C6_witness :
    interpType.STEP ≠ interpType.LINEAR ∧
    (tnumberinstarr_set_tbox [⟨3, 0⟩, ⟨1, 1⟩] false false
      interpType.STEP).span.lower_inc = true ∧
    (tnumberinstarr_set_tbox [⟨3, 0⟩, ⟨1, 1⟩] false false
      interpType.STEP).span.upper_inc = true ∧
    (tnumberinstarr_set_tbox [⟨3, 0⟩, ⟨1, 1⟩] false false
      interpType.STEP).period.lower_inc = false ∧
    (tnumberinstarr_set_tbox [⟨3, 0⟩, ⟨1, 1⟩] false false
      interpType.STEP).period.upper_inc = false :=
  ⟨by decide, C6_nonlinear_value_bounds_inclusive [⟨3, 0⟩, ⟨1, 1⟩] false false
    interpType.STEP (by decide)⟩

/-- The value-span lower inclusivity of a Linear box, in closed form: forced
true on a degenerate span, otherwise the OR of the first instant's
contribution (the lower flag) and of the contributions of the scanned
occurrences of the minimum. -/
theorem linear_span_lower_inc (insts : List TInstant) (li ui : Bool) :
    (tnumberinstarr_set_tbox insts li ui interpType.LINEAR).span.lower_inc =
      (if seqMinVal insts = seqMaxVal insts then true
       else ((decide ((insts.headD default).value = seqMinVal insts) && li) ||
         ((List.range (insts.length - 1)).map
           (fun d => (d + 1, (insts.getD (d + 1) default).value))).any
           (fun p => decide (p.2 = seqMinVal insts) &&
             (if p.1 < insts.length - 1 then true else ui)))) := by
  simp only [tnumberinstarr_set_tbox, span_set, if_true, eq_self_iff_true]
  rw [mmLoop_min_inc insts.length ui
      ((List.range (insts.length - 1)).map
        (fun d => (d + 1, (insts.getD (d + 1) default).value)))
      ⟨(insts.headD default).value, (insts.headD default).value, li, li⟩
      (seqMinVal insts) rfl,
    mmLoop_min, mmLoop_max]
  rfl

/-- Dual of `linear_span_lower_inc` for the upper inclusivity. -/
theorem linear_span_upper_inc (insts : List TInstant) (li ui : Bool) :
    (tnumberinstarr_set_tbox insts li ui interpType.LINEAR).span.upper_inc =
      (if seqMinVal insts = seqMaxVal insts then true
       else ((decide ((insts.headD default).value = seqMaxVal insts) && li) ||
         ((List.range (insts.length - 1)).map
           (fun d => (d + 1, (insts.getD (d + 1) default).value))).any
           (fun p => decide (p.2 = seqMaxVal insts) &&
             (if p.1 < insts.length - 1 then true else ui)))) := by
  simp only [tnumberinstarr_set_tbox, span_set, if_true, eq_self_iff_true]
  rw [mmLoop_max_inc insts.length ui
      ((List.range (insts.length - 1)).map
        (fun d => (d + 1, (insts.getD (d + 1) default).value)))
      ⟨(insts.headD default).value, (insts.headD default).value, li, li⟩
      (seqMaxVal insts) rfl,
    mmLoop_min, mmLoop_max]
  rfl

/-- C3 (counterexample): on the Linear two-instant sequence
(v=0,t=0),(v=1,t=1) with lower_inc = false, the minimum 0 occurs at index 0
(not the last index), yet the value-span lower bound is exclusive: the
claimed rule "inclusive at any index other than the last" fails at index 0,
where the bound inherits the sequence's lower flag instead. -/
theorem C3_counterexample :
    seqMinVal [⟨0, 0⟩, ⟨1, 1⟩] = 0 ∧
    (([⟨0, 0⟩, ⟨1, 1⟩] : List TInstant).getD 0 default).value = 0 ∧
    ([⟨0, 0⟩, ⟨1, 1⟩] : List TInstant).length - 1 = 1 ∧
    (tnumberinstarr_set_tbox [⟨0, 0⟩, ⟨1, 1⟩] false true
      interpType.LINEAR).span = ⟨0, 1, false, true⟩ := by
  refine ⟨?_, ?_, ?_, ?_⟩ <;> decide

/-- C3 (amended): with Linear interpolation, an occurrence of the minimum
(resp. maximum) value at an interior index `0 < i < count - 1` makes the
corresponding value bound inclusive; when its only occurrence is at the
final instant the bound equals the sequence's upper flag; an occurrence at
index 0 contributes the lower flag instead (the uncorrected rule fails
there, see the counterexample).  The cited scenario evaluates as claimed. -/
theorem C3_linear_minmax_inclusivity (insts : List TInstant) (li ui : Bool)
    (h2 : 2 ≤ insts.length) :
    ((∃ i, 0 < i ∧ i + 1 < insts.length ∧
        (insts.getD i default).value = seqMinVal insts) →
      (tnumberinstarr_set_tbox insts li ui interpType.LINEAR).span.lower_inc =
        true) ∧
    (((insts.getD (insts.length - 1) default).value = seqMinVal insts ∧
        ∀ i, i + 1 < insts.length →
          (insts.getD i default).value ≠ seqMinVal insts) →
      (tnumberinstarr_set_tbox insts li ui interpType.LINEAR).span.lower_inc =
        ui) ∧
    ((∃ i, 0 < i ∧ i + 1 < insts.length ∧
        (insts.getD i default).value = seqMaxVal insts) →
      (tnumberinstarr_set_tbox insts li ui interpType.LINEAR).span.upper_inc =
        true) ∧
    (((insts.getD (insts.length - 1) default).value = seqMaxVal insts ∧
        ∀ i, i + 1 < insts.length →
          (insts.getD i default).value ≠ seqMaxVal insts) →
      (tnumberinstarr_set_tbox insts li ui interpType.LINEAR).span.upper_inc =
        ui) ∧
    tnumberinstarr_set_tbox [⟨0, 0⟩, ⟨5, 1⟩, ⟨2, 2⟩] true false
      interpType.LINEAR =
      ⟨⟨0, 2, true, false⟩, ⟨0, 5, true, true⟩, true, true⟩ := by
  have hgd0 : insts.getD 0 default = insts.headD default := by
    cases insts with
    | nil => simp at h2
    | cons a l => rfl
  have hmle : seqMinVal insts ≤ (insts.headD default).value :=
    foldl_min_le_init _ _
  have hhle : (insts.headD default).value ≤ seqMaxVal insts :=
    foldl_max_init_le _ _
  refine ⟨?_, ?_, ?_, ?_, by decide⟩
  · rintro ⟨i, hi0, hin, hiv⟩
    rw [linear_span_lower_inc]
    by_cases heq : seqMinVal insts = seqMaxVal insts
    · rw [if_pos heq]
    · rw [if_neg heq]
      have hmem : (i, (insts.getD i default).value) ∈
          (List.range (insts.length - 1)).map
            (fun d => (d + 1, (insts.getD (d + 1) default).value)) := by
        refine List.mem_map.mpr ⟨i - 1, List.mem_range.mpr (by omega), ?_⟩
        rw [show i - 1 + 1 = i from by omega]
      have hany : ((List.range (insts.length - 1)).map
          (fun d => (d + 1, (insts.getD (d + 1) default).value))).any
          (fun p => decide (p.2 = seqMinVal insts) &&
            (if p.1 < insts.length - 1 then true else ui)) = true := by
        refine List.any_eq_true.mpr ⟨_, hmem, ?_⟩
        simp only [hiv, decide_eq_true_eq, Bool.and_eq_true, decide_eq_true]
        refine ⟨by simp, ?_⟩
        rw [if_pos (by omega)]
      rw [hany, Bool.or_true]
  · rintro ⟨hlast, hother⟩
    rw [linear_span_lower_inc]
    have hne0 : (insts.headD default).value ≠ seqMinVal insts := by
      rw [← hgd0]
      exact hother 0 (by omega)
    have heq : ¬ seqMinVal insts = seqMaxVal insts := by omega
    rw [if_neg heq]
    have hd0 : decide ((insts.headD default).value = seqMinVal insts) = false := by
      simp only [decide_eq_false_iff_not]
      exact hne0
    rw [hd0, Bool.false_and, Bool.false_or]
    cases hu : ui with
    | true =>
      refine List.any_eq_true.mpr
        ⟨(insts.length - 1, (insts.getD (insts.length - 1) default).value),
          ?_, ?_⟩
      · refine List.mem_map.mpr
          ⟨insts.length - 2, List.mem_range.mpr (by omega), ?_⟩
        rw [show insts.length - 2 + 1 = insts.length - 1 from by omega]
      · simp only [hlast, decide_eq_true_eq, Bool.and_eq_true, decide_eq_true]
        exact ⟨by simp, by rw [if_neg (by omega)]⟩
    | false =>
      refine List.any_eq_false.mpr ?_
      rintro ⟨i, v⟩ hmem
      obtain ⟨d, hd, hpair⟩ := List.mem_map.mp hmem
      have hdlt := List.mem_range.mp hd
      obtain ⟨hi, hv⟩ := Prod.mk.injEq .. ▸ hpair
      intro hcontra
      rw [Bool.and_eq_true] at hcontra
      by_cases hdl : d + 1 < insts.length - 1
      · have hvne : v ≠ seqMinVal insts := by
          rw [← hv]
          exact hother (d + 1) (by omega)
        exact hvne (of_decide_eq_true hcontra.1)
      · have hix : i = insts.length - 1 := by omega
        have h2c := hcontra.2
        rw [hix, if_neg (lt_irrefl _)] at h2c
        exact Bool.false_ne_true h2c
  · rintro ⟨i, hi0, hin, hiv⟩
    rw [linear_span_upper_inc]
    by_cases heq : seqMinVal insts = seqMaxVal insts
    · rw [if_pos heq]
    · rw [if_neg heq]
      have hmem : (i, (insts.getD i default).value) ∈
          (List.range (insts.length - 1)).map
            (fun d => (d + 1, (insts.getD (d + 1) default).value)) := by
        refine List.mem_map.mpr ⟨i - 1, List.mem_range.mpr (by omega), ?_⟩
        rw [show i - 1 + 1 = i from by omega]
      have hany : ((List.range (insts.length - 1)).map
          (fun d => (d + 1, (insts.getD (d + 1) default).value))).any
          (fun p => decide (p.2 = seqMaxVal insts) &&
            (if p.1 < insts.length - 1 then true else ui)) = true := by
        refine List.any_eq_true.mpr ⟨_, hmem, ?_⟩
        simp only [hiv, decide_eq_true_eq, Bool.and_eq_true, decide_eq_true]
        refine ⟨by simp, ?_⟩
        rw [if_pos (by omega)]
      rw [hany, Bool.or_true]
  · rintro ⟨hlast, hother⟩
    rw [linear_span_upper_inc]
    have hne0 : (insts.headD default).value ≠ seqMaxVal insts := by
      rw [← hgd0]
      exact hother 0 (by omega)
    have heq : ¬ seqMinVal insts = seqMaxVal insts := by omega
    rw [if_neg heq]
    have hd0 : decide ((insts.headD default).value = seqMaxVal insts) = false := by
      simp only [decide_eq_false_iff_not]
      exact hne0
    rw [hd0, Bool.false_and, Bool.false_or]
    cases hu : ui with
    | true =>
      refine List.any_eq_true.mpr
        ⟨(insts.length - 1, (insts.getD (insts.length - 1) default).value),
          ?_, ?_⟩
      · refine List.mem_map.mpr
          ⟨insts.length - 2, List.mem_range.mpr (by omega), ?_⟩
        rw [show insts.length - 2 + 1 = insts.length - 1 from by omega]
      · simp only [hlast, decide_eq_true_eq, Bool.and_eq_true, decide_eq_true]
        exact ⟨by simp, by rw [if_neg (by omega)]⟩
    | false =>
      refine List.any_eq_false.mpr ?_
      rintro ⟨i, v⟩ hmem
      obtain ⟨d, hd, hpair⟩ := List.mem_map.mp hmem
      have hdlt := List.mem_range.mp hd
      obtain ⟨hi, hv⟩ := Prod.mk.injEq .. ▸ hpair
      intro hcontra
      rw [Bool.and_eq_true] at hcontra
      by_cases hdl : d + 1 < insts.length - 1
      · have hvne : v ≠ seqMaxVal insts := by
          rw [← hv]
          exact hother (d + 1) (by omega)
        exact hvne (of_decide_eq_true hcontra.1)
      · have hix : i = insts.length - 1 := by omega
        have h2c := hcontra.2
        rw [hix, if_neg (lt_irrefl _)] at h2c
        exact Bool.false_ne_true h2c

/-- Witness for C3 (amended) at the cited scenario. -/
theorem C3_witness :
    2 ≤ ([⟨0, 0⟩, ⟨5, 1⟩, ⟨2, 2⟩] : List TInstant).length ∧
    tnumberinstarr_set_tbox [⟨0, 0⟩, ⟨5, 1⟩, ⟨2, 2⟩] true false
      interpType.LINEAR =
      ⟨⟨0, 2, true, false⟩, ⟨0, 5, true, true⟩, true, true⟩ :=
  ⟨by decide,
    (C3_linear_minmax_inclusivity [⟨0, 0⟩, ⟨5, 1⟩, ⟨2, 2⟩] true false
      (by decide)).2.2.2.2⟩

/-! ### Lemmas for the grouped partitioning (C1) -/

theorem foldExpand_append (z : TBox) (l : List TBox) (a : TBox) :
    foldExpand z (l ++ [a]) = tbox_expand a (foldExpand z l) := by
  simp [foldExpand, List.foldl_append]

theorem foldExpand_flags (l : List TBox) :
    ∀ z : TBox, (foldExpand z l).xflag = z.xflag ∧ (foldExpand z l).tflag = z.tflag := by
  induction l with
  | nil => intro z; exact ⟨rfl, rfl⟩
  | cons b rest ih =>
    intro z
    obtain ⟨h1, h2⟩ := ih (tbox_expand b z)
    constructor
    · show (foldExpand (tbox_expand b z) rest).xflag = z.xflag
      rw [h1, (tbox_expand_tgt_flags b z).1]
    · show (foldExpand (tbox_expand b z) rest).tflag = z.tflag
      rw [h2, (tbox_expand_tgt_flags b z).2]

theorem span_expand_self (s : Span) : span_expand s s = s := by
  ext <;> simp [span_expand]

theorem tbox_expand_self (a : TBox) : tbox_expand a a = a := by
  ext : 1 <;> simp only [tbox_expand] <;> split_ifs <;> simp [span_expand_self]

/-- One more instant on the right of the merged range. -/
theorem instRangeBox_succ (insts : List TInstant) (i j : Nat) (hij : i ≤ j) :
    instRangeBox insts i (j + 1) =
      tbox_expand (tnumberinst_set_tbox (insts.getD (j + 1) default))
        (instRangeBox insts i j) := by
  have h1 : j + 1 - i = (j - i) + 1 := by omega
  rw [instRangeBox, h1, List.range_succ, List.map_append, List.map_cons,
    List.map_nil, foldExpand_append]
  rw [show i + 1 + (j - i) = j + 1 from by omega]
  rfl

/-- The flags of a merged instant range are set. -/
theorem instRangeBox_flags (insts : List TInstant) (i j : Nat) :
    (instRangeBox insts i j).xflag = true ∧ (instRangeBox insts i j).tflag = true :=
  foldExpand_flags _ _

/-- Re-merging an instant that the range already contains is a no-op. -/
theorem instRangeBox_absorb (insts : List TInstant) (i j : Nat) (hij : i ≤ j) :
    tbox_expand (tnumberinst_set_tbox (insts.getD j default))
      (instRangeBox insts i j) = instRangeBox insts i j := by
  rcases Nat.lt_or_ge i j with h | h
  · obtain ⟨j', rfl⟩ : ∃ j', j = j' + 1 := ⟨j - 1, by omega⟩
    rw [instRangeBox_succ insts i j' (by omega), tbox_expand_idem]
  · have hji : i = j := by omega
    subst hji
    show tbox_expand _ (instRangeBox insts i i) = instRangeBox insts i i
    have : instRangeBox insts i i = tnumberinst_set_tbox (insts.getD i default) := by
      rw [instRangeBox]
      rw [show i - i = 0 from by omega]
      rfl
    rw [this, tbox_expand_self]

/-- One more segment on the right of the merged group. -/
theorem segUnion_succ (insts : List TInstant) (i j : Nat) (hij : i < j) :
    segUnion insts i (j + 1) =
      tbox_expand (segBox insts j) (segUnion insts i j) := by
  have h1 : j + 1 - i - 1 = (j - i - 1) + 1 := by omega
  rw [segUnion, h1, List.range_succ, List.map_append, List.map_cons,
    List.map_nil, foldExpand_append]
  rw [show i + 1 + (j - i - 1) = j from by omega]
  rfl

/-- The grouped merge over instants `i .. j` equals the union of the
elementary segment boxes of segments `i .. j-1`. -/
theorem instRangeBox_eq_segUnion (insts : List TInstant) :
    ∀ (n i : Nat), instRangeBox insts i (i + n + 1) = segUnion insts i (i + n + 1) := by
  intro n
  induction n with
  | zero =>
    intro i
    have h1 : instRangeBox insts i (i + 1) =
        tbox_expand (tnumberinst_set_tbox (insts.getD (i + 1) default))
          (instRangeBox insts i i) := by
      rw [show i + 0 + 1 = i + 1 from rfl]
      exact instRangeBox_succ insts i i (le_refl i)
    have h2 : instRangeBox insts i i =
        tnumberinst_set_tbox (insts.getD i default) := by
      rw [instRangeBox]
      rw [show i - i = 0 from by omega]
      rfl
    have h3 : segUnion insts i (i + 1) = segBox insts i := by
      rw [segUnion]
      rw [show i + 1 - i - 1 = 0 from by omega]
      rfl
    rw [h1, h2, h3]
    rfl
  | succ n ih =>
    intro i
    have hstep : instRangeBox insts i (i + n + 1 + 1) =
        tbox_expand (tnumberinst_set_tbox (insts.getD (i + n + 1 + 1) default))
          (instRangeBox insts i (i + n + 1)) :=
      instRangeBox_succ insts i (i + n + 1) (by omega)
    have hseg : segUnion insts i (i + n + 1 + 1) =
        tbox_expand (segBox insts (i + n + 1)) (segUnion insts i (i + n + 1)) :=
      segUnion_succ insts i (i + n + 1) (by omega)
    rw [show i + (n + 1) + 1 = i + n + 1 + 1 from by omega, hstep, hseg, ← ih i]
    rw [segBox]
    rw [tbox_expand_assoc _ _ _ rfl rfl]
    rw [instRangeBox_absorb insts i (i + n + 1) (by omega)]

/-- Element `m` of the grouped loop started at output index `k` and input
index `i`: the merged instants run from `i` plus the units consumed by the
groups `k .. k+m-1` to the same point one group later. -/
theorem contGroupLoop_getD (insts : List TInstant) (size rem : Nat) :
    ∀ (fuel k i m : Nat), m < fuel →
      (contGroupLoop insts size rem fuel k i).getD m default =
        instRangeBox insts
          (i + (m * size + (min (k + m) rem - min k rem)))
          (i + ((m + 1) * size + (min (k + m + 1) rem - min k rem))) := by
  intro fuel
  induction fuel with
  | zero => intro k i m hm; omega
  | succ n ih =>
    intro k i m hm
    show ((instRangeBox insts i (i + size + (if k < rem then 1 else 0)) ::
      contGroupLoop insts size rem n (k + 1)
        (i + size + (if k < rem then 1 else 0))).getD m default) = _
    cases m with
    | zero =>
      show instRangeBox insts i (i + size + (if k < rem then 1 else 0)) = _
      have h1 : i + (0 * size + (min (k + 0) rem - min k rem)) = i := by
        simp
      have h2 : i + (1 * size + (min (k + 0 + 1) rem - min k rem)) =
          i + size + (if k < rem then 1 else 0) := by
        by_cases hk : k < rem
        · rw [if_pos hk]
          have : min (k + 0 + 1) rem - min k rem = 1 := by omega
          omega
        · rw [if_neg hk]
          have : min (k + 0 + 1) rem - min k rem = 0 := by omega
          omega
      rw [h1, h2]
    | succ m' =>
      show (contGroupLoop insts size rem n (k + 1)
          (i + size + (if k < rem then 1 else 0))).getD m' default = _
      rw [ih (k + 1) (i + size + (if k < rem then 1 else 0)) m' (by omega)]
      have hms : (m' + 1) * size = m' * size + size := by ring
      have hms2 : (m' + 1 + 1) * size = (m' + 1) * size + size := by ring
      by_cases hk : k < rem
      · rw [if_pos hk]
        congr 1 <;> omega
      · rw [if_neg hk]
        congr 1 <;> omega

/-- C1: for a temporal number sequence with more than `maxCount + 1` instants
and a budget `1 <= maxCount < n - 1`, `tnumberseq_tboxes` returns exactly
`maxCount` boxes; box `m` merges the contiguous run of elementary units from
`groupStart nsegs maxCount m` to `groupStart nsegs maxCount (m+1)` in input
order (the union of the group's elementary segment boxes, seeded with the
first and merged with the rest); the first `nsegs % maxCount` groups have
`nsegs / maxCount + 1` units and the remaining groups `nsegs / maxCount`
units, and the groups tile `0 .. nsegs` contiguously. -/
theorem C1_grouped_partitioning (insts : List TInstant) (li ui : Bool)
    (interp : interpType) (mc : Int) (h1 : 1 ≤ mc)
    (h2 : mc < (insts.length : Int) - 1) :
    (tnumberseq_tboxes ⟨insts, li, ui, interp⟩ mc).length = mc.toNat ∧
    (∀ m, m < mc.toNat →
      (tnumberseq_tboxes ⟨insts, li, ui, interp⟩ mc).getD m default =
        segUnion insts (groupStart (insts.length - 1) mc.toNat m)
          (groupStart (insts.length - 1) mc.toNat (m + 1)) ∧
      groupStart (insts.length - 1) mc.toNat (m + 1) -
          groupStart (insts.length - 1) mc.toNat m =
        (insts.length - 1) / mc.toNat +
          (if m < (insts.length - 1) % mc.toNat then 1 else 0)) ∧
    groupStart (insts.length - 1) mc.toNat 0 = 0 ∧
    groupStart (insts.length - 1) mc.toNat mc.toNat = insts.length - 1 := by
  have hlen : 3 ≤ insts.length := by omega
  have hlen1 : ((insts.length - 1 : Nat) : Int) = (insts.length : Int) - 1 := by
    omega
  have hcond : ¬ (mc < 1 ∨ ((insts.length - 1 : Nat) : Int) ≤ mc) := by
    rw [hlen1]
    omega
  have hmc0 : 0 < mc.toNat := by omega
  have hsize : 1 ≤ (insts.length - 1) / mc.toNat := by
    rw [Nat.one_le_div_iff hmc0]
    omega
  have hdispatch : tnumberseq_tboxes ⟨insts, li, ui, interp⟩ mc =
      contGroupLoop insts ((insts.length - 1) / mc.toNat)
        ((insts.length - 1) % mc.toNat) mc.toNat 0 0 := by
    have hne1 : ¬ insts.length = 1 := by omega
    cases interp <;>
      simp only [tnumberseq_tboxes, tnumberseq_tboxes_iter,
        tnumberseq_disc_tboxes_iter, tnumberseq_cont_tboxes_iter, hne1,
        if_false, if_neg hcond, reduceCtorEq, if_true, if_pos rfl, ite_false,
        ite_true]
  have hrem : (insts.length - 1) % mc.toNat < mc.toNat :=
    Nat.mod_lt _ hmc0
  have hdiv := Nat.div_add_mod (insts.length - 1) mc.toNat
  refine ⟨?_, ?_, ?_, ?_⟩
  · rw [hdispatch, contGroupLoop_length]
  · intro m hm
    have hget := contGroupLoop_getD insts ((insts.length - 1) / mc.toNat)
      ((insts.length - 1) % mc.toNat) mc.toNat 0 0 m hm
    have hms : (m + 1) * ((insts.length - 1) / mc.toNat) =
        m * ((insts.length - 1) / mc.toNat) + (insts.length - 1) / mc.toNat := by
      ring
    have hgs1 : 0 + (m * ((insts.length - 1) / mc.toNat) +
        (min (0 + m) ((insts.length - 1) % mc.toNat) -
          min 0 ((insts.length - 1) % mc.toNat))) =
        groupStart (insts.length - 1) mc.toNat m := by
      rw [groupStart]
      omega
    have hgs2 : 0 + ((m + 1) * ((insts.length - 1) / mc.toNat) +
        (min (0 + m + 1) ((insts.length - 1) % mc.toNat) -
          min 0 ((insts.length - 1) % mc.toNat))) =
        groupStart (insts.length - 1) mc.toNat (m + 1) := by
      rw [groupStart, hms]
      omega
    have hlt : groupStart (insts.length - 1) mc.toNat m <
        groupStart (insts.length - 1) mc.toNat (m + 1) := by
      rw [groupStart, groupStart, hms]
      omega
    constructor
    · rw [hdispatch, hget, hgs1, hgs2]
      obtain ⟨d, hd⟩ : ∃ d, groupStart (insts.length - 1) mc.toNat (m + 1) =
          groupStart (insts.length - 1) mc.toNat m + d + 1 :=
        ⟨groupStart (insts.length - 1) mc.toNat (m + 1) -
          groupStart (insts.length - 1) mc.toNat m - 1, by omega⟩
      rw [hd]
      exact instRangeBox_eq_segUnion insts d _
    · rw [groupStart, groupStart, hms]
      by_cases hmr : m < (insts.length - 1) % mc.toNat
      · rw [if_pos hmr]
        omega
      · rw [if_neg hmr]
        omega
  · rw [groupStart]
    omega
  · rw [groupStart]
    have hmul : mc.toNat * ((insts.length - 1) / mc.toNat) =
        ((insts.length - 1) / mc.toNat) * mc.toNat := by ring
    omega

/-- Witness for C1 at the 7-instant scenario with budget 4 (6 segments,
groups of sizes 2, 2, 1, 1). -/
theorem C1_witness :
    (1 : Int) ≤ 4 ∧ (4 : Int) < (seqC1.instants.length : Int) - 1 ∧
    (tnumberseq_tboxes seqC1 4).length = 4 ∧
    (tnumberseq_tboxes seqC1 4).getD 0 default =
      segUnion seqC1.instants (groupStart 6 4 0) (groupStart 6 4 1) ∧
    (tnumberseq_tboxes seqC1 4).getD 1 default =
      segUnion seqC1.instants (groupStart 6 4 1) (groupStart 6 4 2) ∧
    (tnumberseq_tboxes seqC1 4).getD 2 default =
      segUnion seqC1.instants (groupStart 6 4 2) (groupStart 6 4 3) ∧
    (tnumberseq_tboxes seqC1 4).getD 3 default =
      segUnion seqC1.instants (groupStart 6 4 3) (groupStart 6 4 4) ∧
    groupStart 6 4 0 = 0 ∧ groupStart 6 4 1 = 2 ∧ groupStart 6 4 2 = 4 ∧
    groupStart 6 4 3 = 5 ∧ groupStart 6 4 4 = 6 :=
  ⟨by decide, by decide,
    (C1_grouped_partitioning seqC1.instants true true interpType.LINEAR 4
      (by decide) (by decide)).1,
    ((C1_grouped_partitioning seqC1.instants true true interpType.LINEAR 4
      (by decide) (by decide)).2.1 0 (by decide)).1,
    ((C1_grouped_partitioning seqC1.instants true true interpType.LINEAR 4
      (by decide) (by decide)).2.1 1 (by decide)).1,
    ((C1_grouped_partitioning seqC1.instants true true interpType.LINEAR 4
      (by decide) (by decide)).2.1 2 (by decide)).1,
    ((C1_grouped_partitioning seqC1.instants true true interpType.LINEAR 4
      (by decide) (by decide)).2.1 3 (by decide)).1,
    by decide, by decide, by decide, by decide, by decide⟩

/-- C5: in regime (b) (`1 <= ssCount <= maxCount < totalcount`, Linear set),
`tnumberseqset_tboxes` partitions each member sequence independently with
the sub-budget `floor(maxCount * count / totalcount)` raised to 1, and
concatenates the per-sequence results in sequence order. -/
theorem C5_regime_b_proportional_budgets (ss : TSequenceSet) (mc : Int)
    (hlin : ss.interp = interpType.LINEAR) (h1 : 1 ≤ mc)
    (hb1 : (ss.sequences.length : Int) ≤ mc)
    (hb2 : mc < (totalcount ss : Int)) :
    tnumberseqset_tboxes ss mc =
      some ((ss.sequences.map
        (fun s => tnumberseq_tboxes_iter s (seqBudget mc (totalcount ss) s))).flatten) ∧
    ∀ s ∈ ss.sequences,
      seqBudget mc (totalcount ss) s =
        max 1 (mc * (s.instants.length : Int) / (totalcount ss : Int)) := by
  constructor
  · have hcond1 : ¬ (mc < 1 ∨ (totalcount ss : Int) ≤ mc) := by omega
    simp only [tnumberseqset_tboxes, hlin, ne_eq, not_true_eq_false, if_false,
      ite_false, if_neg hcond1, if_pos hb1, reduceCtorEq]
  · intro s _hs
    rw [seqBudget]
    have htot : 0 < (totalcount ss : Int) := by omega
    have hq0 : 0 ≤ mc * (s.instants.length : Int) / (totalcount ss : Int) :=
      Int.ediv_nonneg (by positivity) (le_of_lt htot)
    by_cases hz : mc * (s.instants.length : Int) / (totalcount ss : Int) = 0
    · rw [if_pos hz, hz]
      rfl
    · rw [if_neg hz]
      omega

/-- Witness for C5: instant counts 3, 3, 3 (totalcount 9) with budget 3 give
one box per sequence, each covering its whole sequence. -/
theorem C5_witness :
    (ssC5.interp = interpType.LINEAR ∧ (1 : Int) ≤ 3 ∧
      (ssC5.sequences.length : Int) ≤ 3 ∧ (3 : Int) < (totalcount ssC5 : Int)) ∧
    tnumberseqset_tboxes ssC5 3 =
      some [⟨⟨0, 2, true, true⟩, ⟨1, 3, true, true⟩, true, true⟩,
        ⟨⟨10, 12, true, true⟩, ⟨4, 6, true, true⟩, true, true⟩,
        ⟨⟨20, 22, true, true⟩, ⟨7, 9, true, true⟩, true, true⟩] :=
  ⟨⟨by decide, by decide, by decide, by decide⟩,
    ((C5_regime_b_proportional_budgets ssC5 3 (by decide) (by decide)
      (by decide) (by decide)).1).trans (by decide)⟩

/-! ### Lemmas for incremental expansion vs. recompute (C4) -/

theorem span_expand_pt (v lo hi : Int) (li ui : Bool) :
    span_expand ⟨v, v, true, true⟩ ⟨lo, hi, li, ui⟩ =
      ⟨min lo v, max hi v, (if v < lo then true else if lo < v then li else true),
        (if hi < v then true else if v < hi then ui else true)⟩ := by
  ext <;> simp only [span_expand] <;> (try split_ifs) <;>
    first
      | rfl
      | omega

theorem span_expand_pt_tt (v lo hi : Int) :
    span_expand ⟨v, v, true, true⟩ ⟨lo, hi, true, true⟩ =
      ⟨min lo v, max hi v, true, true⟩ := by
  rw [span_expand_pt]
  ext <;> simp

theorem map_getLastD {α β : Type} (F : α → β) :
    ∀ (l : List α) (a : α), (l.map F).getLastD (F a) = F (l.getLastD a) := by
  intro l
  induction l with
  | nil => intro a; rfl
  | cons r rs ih =>
    intro a
    cases rs with
    | nil => rfl
    | cons r2 rs2 => exact ih r

theorem chain_lt_all {α : Type} (F : α → Int) :
    ∀ (l : List α) (a : α), List.Chain (fun p q => F p < F q) a l →
      ∀ x ∈ l, F a < F x := by
  intro l
  induction l with
  | nil => intro a _ x hx; cases hx
  | cons r rs ih =>
    intro a hc x hx
    rw [List.chain_cons] at hc
    rcases List.mem_cons.mp hx with rfl | hx
    · exact hc.1
    · exact lt_trans hc.1 (ih r hc.2 x hx)

theorem foldl_min_all_ge {α : Type} (F : α → Int) :
    ∀ (l : List α) (a : Int), (∀ x ∈ l, a ≤ F x) →
      l.foldl (fun m x => min m (F x)) a = a := by
  intro l
  induction l with
  | nil => intro a _; rfl
  | cons r rs ih =>
    intro a h
    show rs.foldl (fun m x => min m (F x)) (min a (F r)) = a
    rw [min_eq_left (h r (List.mem_cons_self r rs))]
    exact ih a (fun x hx => h x (List.mem_cons_of_mem r hx))

theorem chain_fold_min {α : Type} (F : α → Int) (l : List α) (a : α)
    (hc : List.Chain (fun p q => F p < F q) a l) :
    l.foldl (fun m x => min m (F x)) (F a) = F a :=
  foldl_min_all_ge F l (F a) (fun x hx => le_of_lt (chain_lt_all F l a hc x hx))

theorem chain_fold_max {α : Type} (F : α → Int) :
    ∀ (l : List α) (a : α), List.Chain (fun p q => F p < F q) a l →
      l.foldl (fun m x => max m (F x)) (F a) = F (l.getLastD a) := by
  intro l
  induction l with
  | nil => intro a _; rfl
  | cons r rs ih =>
    intro a hc
    rw [List.chain_cons] at hc
    have hstep : (r :: rs).foldl (fun m x => max m (F x)) (F a) =
        rs.foldl (fun m x => max m (F x)) (F r) := by
      show rs.foldl _ (max (F a) (F r)) = _
      rw [max_eq_right (le_of_lt hc.1)]
    rw [hstep, ih r hc.2]
    cases rs with
    | nil => rfl
    | cons r2 rs2 => rfl

theorem foldl_range_getD {α : Type} [Inhabited α] (g : Int → Int → Int)
    (F : α → Int) :
    ∀ (l : List α) (a : Int),
      (List.range l.length).foldl (fun x d => g x (F (l.getD d default))) a =
        l.foldl (fun x i => g x (F i)) a := by
  intro l
  induction l with
  | nil => intro a; rfl
  | cons i l' ih =>
    intro a
    rw [List.length_cons, List.range_succ_eq_map, List.foldl_cons,
      List.foldl_map]
    have hext := List.foldl_ext
      (fun (x : Int) (d : Nat) => g x (F ((i :: l').getD (Nat.succ d) default)))
      (fun (x : Int) (d : Nat) => g x (F (l'.getD d default)))
      (g a (F ((i :: l').getD 0 default)))
      (l := List.range l'.length)
      (fun x d _ => by
        show g x (F ((i :: l').getD (Nat.succ d) default)) =
          g x (F (l'.getD d default))
        rw [show Nat.succ d = d + 1 from rfl, List.getD_cons_succ])
    rw [hext]
    have h0 : ((i :: l').getD 0 default) = i := rfl
    rw [h0]
    exact ih (g a (F i))

/-- The indexed value fold of the scan equals the direct fold over the tail
instants. -/
theorem idx_value_fold (g : Int → Int → Int) (i0 : TInstant)
    (rest : List TInstant) (a : Int) :
    ((List.range ((i0 :: rest).length - 1)).map
      (fun d => (d + 1, ((i0 :: rest).getD (d + 1) default).value))).foldl
      (fun x p => g x p.2) a = rest.foldl (fun x i => g x i.value) a := by
  have hlen : (i0 :: rest).length - 1 = rest.length := by simp
  rw [hlen, List.foldl_map]
  have hext := List.foldl_ext
    (fun (x : Int) (d : Nat) => g x (((i0 :: rest).getD (d + 1) default).value))
    (fun (x : Int) (d : Nat) => g x ((rest.getD d default).value))
    a (l := List.range rest.length)
    (fun x d _ => by
      show g x (((i0 :: rest).getD (d + 1) default).value) =
        g x ((rest.getD d default).value)
      rw [List.getD_cons_succ])
  rw [hext]
  exact foldl_range_getD g (fun i => i.value) rest a

/-- Expanding a min/max-shaped all-inclusive box with one instant's box
takes componentwise minima and maxima. -/
theorem tnumberseq_expand_tbox_mm (inst : TInstant) (vlo vhi tlo thi : Int) :
    tnumberseq_expand_tbox
      ⟨⟨tlo, thi, true, true⟩, ⟨vlo, vhi, true, true⟩, true, true⟩ inst =
      ⟨⟨min tlo inst.t, max thi inst.t, true, true⟩,
        ⟨min vlo inst.value, max vhi inst.value, true, true⟩, true, true⟩ := by
  rw [tnumberseq_expand_tbox, tnumberinst_set_tbox]
  ext : 1 <;> simp only [tbox_expand, span_set, if_true] <;>
    rw [span_expand_pt_tt]

/-- The append fold over instants keeps the min/max shape with componentwise
extrema. -/
theorem numSeqCached_fold (rest : List TInstant) :
    ∀ (vlo vhi tlo thi : Int),
      rest.foldl tnumberseq_expand_tbox
        ⟨⟨tlo, thi, true, true⟩, ⟨vlo, vhi, true, true⟩, true, true⟩ =
        ⟨⟨rest.foldl (fun a i => min a i.t) tlo,
            rest.foldl (fun a i => max a i.t) thi, true, true⟩,
          ⟨rest.foldl (fun a i => min a i.value) vlo,
            rest.foldl (fun a i => max a i.value) vhi, true, true⟩,
          true, true⟩ := by
  induction rest with
  | nil => intro vlo vhi tlo thi; rfl
  | cons r rs ih =>
    intro vlo vhi tlo thi
    rw [List.foldl_cons, tnumberseq_expand_tbox_mm, ih]
    rfl

/-- The creation box of a singleton number sequence is the instant's box. -/
theorem num_singleton_box (i0 : TInstant) (interp : interpType) :
    tinstarr_compute_bbox_num [i0] true true interp =
      ⟨⟨i0.t, i0.t, true, true⟩, ⟨i0.value, i0.value, true, true⟩, true, true⟩ := by
  rw [tinstarr_compute_bbox_num, tnumberinstarr_set_tbox]
  simp [mmLoop, span_set]

/-- The recomputed box of a number sequence with inclusive flags: extrema of
the values, the period from the first to the last timestamp. -/
theorem recompute_num (i0 : TInstant) (rest : List TInstant)
    (interp : interpType) :
    tinstarr_compute_bbox_num (i0 :: rest) true true interp =
      ⟨⟨i0.t, (rest.getLastD i0).t, true, true⟩,
        ⟨rest.foldl (fun a i => min a i.value) i0.value,
          rest.foldl (fun a i => max a i.value) i0.value, true, true⟩,
        true, true⟩ := by
  rw [tinstarr_compute_bbox_num, tnumberinstarr_set_tbox]
  obtain ⟨hm, hM⟩ := mmLoop_true_incs (i0 :: rest).length
    ((List.range ((i0 :: rest).length - 1)).map
      (fun d => (d + 1, ((i0 :: rest).getD (d + 1) default).value)))
    ⟨((i0 :: rest).headD default).value, ((i0 :: rest).headD default).value,
      true, true⟩ rfl rfl
  have hlast : ((i0 :: rest).getLastD default) = rest.getLastD i0 := by
    cases rest <;> rfl
  simp only [ite_self, span_set]
  ext : 1
  · ext
    · rfl
    · show ((i0 :: rest).getLastD default).t = (rest.getLastD i0).t
      rw [hlast]
    · rfl
    · rfl
  · ext
    · show (mmLoop _ _ _ _).min = _
      rw [mmLoop_min]
      exact idx_value_fold (fun x y => min x y) i0 rest i0.value
    · show (mmLoop _ _ _ _).max = _
      rw [mmLoop_max]
      exact idx_value_fold (fun x y => max x y) i0 rest i0.value
    · show (if (mmLoop _ _ _ _).min = (mmLoop _ _ _ _).max then true
        else (mmLoop _ _ _ _).min_inc) = true
      rw [hm, ite_self]
    · show (if (mmLoop _ _ _ _).min = (mmLoop _ _ _ _).max then true
        else (mmLoop _ _ _ _).max_inc) = true
      rw [hM, ite_self]
  · rfl
  · rfl

/-- Incremental equals recompute for a number sequence built by appends. -/
theorem numSeqCached_eq_recompute (interp : interpType) (i0 : TInstant)
    (rest : List TInstant)
    (ht : List.Chain (fun a b : TInstant => a.t < b.t) i0 rest) :
    numSeqCached interp i0 rest =
      tinstarr_compute_bbox_num (i0 :: rest) true true interp := by
  rw [numSeqCached, num_singleton_box, numSeqCached_fold, recompute_num]
  ext : 1
  · ext
    · exact chain_fold_min (fun i => i.t) rest i0 ht
    · exact chain_fold_max (fun i => i.t) rest i0 ht
    · rfl
    · rfl
  · rfl
  · rfl
  · rfl

/-- Incremental equals recompute for an alpha sequence built by appends. -/
theorem alphaSeqCached_eq_recompute (i0 : TInstant) (rest : List TInstant) :
    alphaSeqCached i0 rest = tinstarr_compute_bbox_alpha (i0 :: rest) true true := by
  have hfold : ∀ (rs : List TInstant) (u : Int),
      rs.foldl (tsequence_expand_bbox_alpha i0) ⟨i0.t, u, true, true⟩ =
        ⟨i0.t, (rs.map (fun i => i.t)).getLastD u, true, true⟩ := by
    intro rs
    induction rs with
    | nil => intro u; rfl
    | cons r rs' ih =>
      intro u
      rw [List.foldl_cons]
      show rs'.foldl (tsequence_expand_bbox_alpha i0) ⟨i0.t, r.t, true, true⟩ = _
      rw [ih r.t]
      cases rs' <;> rfl
  have hseed : tinstarr_compute_bbox_alpha [i0] true true =
      (⟨i0.t, i0.t, true, true⟩ : Span) := rfl
  rw [alphaSeqCached, hseed, hfold]
  have hlast : ((i0 :: rest).getLastD default) = rest.getLastD i0 := by
    cases rest <;> rfl
  rw [tinstarr_compute_bbox_alpha]
  ext
  · rfl
  · show (rest.map (fun i => i.t)).getLastD i0.t = ((i0 :: rest).getLastD default).t
    rw [hlast, map_getLastD (fun i => i.t) rest i0]
  · rfl
  · rfl

/-- Incremental equals recompute for a number sequence set built by appends. -/
theorem numSeqSetCached_eq_recompute (b0 : TBox) (brest : List TBox) :
    numSeqSetCached b0 brest = tnumberseqarr_set_tbox (b0 :: brest) := rfl

/-- Incremental equals recompute for a spatial sequence set built by
appends. -/
theorem spatialSeqSetCached_eq_recompute (s0 : STBox) (srest : List STBox) :
    spatialSeqSetCached s0 srest = tpointseqarr_set_stbox (s0 :: srest) := rfl

/-- Union of a span with a valid span entirely before it: the union runs
from the earlier lower bound to the later upper bound with their flags. -/
theorem span_expand_before (p0 p1 : Span) (h0 : spanValid p0)
    (h1 : spanValid p1) (hb : spanBefore p0 p1) :
    span_expand p1 p0 = ⟨p0.lower, p1.upper, p0.lower_inc, p1.upper_inc⟩ := by
  rcases h0 with h0 | ⟨h0e, h0l, h0u⟩ <;>
    rcases h1 with h1 | ⟨h1e, h1l, h1u⟩ <;>
      rcases hb with hb | ⟨hbe, hbi⟩ <;>
        (ext <;> simp only [span_expand] <;> (try split_ifs) <;>
          first | rfl | omega | simp_all)

/-- Incremental equals recompute for an alpha sequence set built by appends
of valid, time-disjoint, ordered periods. -/
theorem alphaSeqSetCached_eq_recompute :
    ∀ (prest : List Span) (p0 : Span), spanValid p0 →
      (∀ p ∈ prest, spanValid p) → List.Chain spanBefore p0 prest →
      alphaSeqSetCached p0 prest = tseqarr_set_tstzspan (p0 :: prest) := by
  intro prest
  induction prest with
  | nil => intro p0 _ _ _; rfl
  | cons p1 ps ih =>
    intro p0 h0 hps hc
    rw [List.chain_cons] at hc
    have h1 : spanValid p1 := hps p1 (List.mem_cons_self p1 ps)
    have hstep : span_expand p1 (tseqarr_set_tstzspan [p0]) =
        ⟨p0.lower, p1.upper, p0.lower_inc, p1.upper_inc⟩ := by
      rw [show tseqarr_set_tstzspan [p0] = p0 from rfl]
      exact span_expand_before p0 p1 h0 h1 hc.1
    show ps.foldl (fun acc p => span_expand p acc)
      (span_expand p1 (tseqarr_set_tstzspan [p0])) = _
    rw [hstep]
    have hv : spanValid (⟨p0.lower, p1.upper, p0.lower_inc, p1.upper_inc⟩ : Span) := by
      left
      show p0.lower < p1.upper
      rcases h0 with h0 | ⟨h0e, h0l, h0u⟩ <;>
        rcases h1 with h1 | ⟨h1e, h1l, h1u⟩ <;>
          rcases hc.1 with hb | ⟨hbe, hbi⟩ <;>
            first
              | omega
              | (rcases hbi with h | h <;> simp_all)
    have hchain : List.Chain spanBefore
        (⟨p0.lower, p1.upper, p0.lower_inc, p1.upper_inc⟩ : Span) ps := by
      cases ps with
      | nil => exact List.Chain.nil
      | cons q qs =>
        rw [List.chain_cons] at hc ⊢
        exact ⟨hc.2.1, hc.2.2⟩
    have hih := ih ⟨p0.lower, p1.upper, p0.lower_inc, p1.upper_inc⟩ hv
      (fun p hp => hps p (List.mem_cons_of_mem p1 hp)) hchain
    rw [show ps.foldl (fun acc p => span_expand p acc)
        (⟨p0.lower, p1.upper, p0.lower_inc, p1.upper_inc⟩ : Span) =
        alphaSeqSetCached ⟨p0.lower, p1.upper, p0.lower_inc, p1.upper_inc⟩ ps
      from rfl, hih]
    ext
    · rfl
    · show ((⟨p0.lower, p1.upper, p0.lower_inc, p1.upper_inc⟩ :: ps :
        List Span).getLastD default).upper = _
      cases ps <;> rfl
    · rfl
    · show ((⟨p0.lower, p1.upper, p0.lower_inc, p1.upper_inc⟩ :: ps :
        List Span).getLastD default).upper_inc = _
      cases ps <;> rfl

/-- Expanding a min/max-shaped spatiotemporal box with one point box takes
componentwise minima and maxima. -/
theorem tpointseq_expand_stbox_mm (i : SInstant)
    (tlo thi xlo xhi ylo yhi zlo zhi : Int) :
    tpointseq_expand_stbox
      ⟨⟨tlo, thi, true, true⟩, xlo, xhi, ylo, yhi, zlo, zhi⟩ i =
      ⟨⟨min tlo i.t, max thi i.t, true, true⟩, min xlo i.x, max xhi i.x,
        min ylo i.y, max yhi i.y, min zlo i.z, max zhi i.z⟩ := by
  rw [tpointseq_expand_stbox, tpointinst_set_stbox, stbox_expand]
  ext : 1
  · exact span_expand_pt_tt i.t tlo thi
  · exact min_comm i.x xlo
  · exact max_comm i.x xhi
  · exact min_comm i.y ylo
  · exact max_comm i.y yhi
  · exact min_comm i.z zlo
  · exact max_comm i.z zhi

/-- The append fold over spatial instants keeps the min/max shape. -/
theorem spatialSeqCached_fold (grest : List SInstant) :
    ∀ (tlo thi xlo xhi ylo yhi zlo zhi : Int),
      grest.foldl tpointseq_expand_stbox
        ⟨⟨tlo, thi, true, true⟩, xlo, xhi, ylo, yhi, zlo, zhi⟩ =
        ⟨⟨grest.foldl (fun a i => min a i.t) tlo,
            grest.foldl (fun a i => max a i.t) thi, true, true⟩,
          grest.foldl (fun a i => min a i.x) xlo,
          grest.foldl (fun a i => max a i.x) xhi,
          grest.foldl (fun a i => min a i.y) ylo,
          grest.foldl (fun a i => max a i.y) yhi,
          grest.foldl (fun a i => min a i.z) zlo,
          grest.foldl (fun a i => max a i.z) zhi⟩ := by
  induction grest with
  | nil => intro tlo thi xlo xhi ylo yhi zlo zhi; rfl
  | cons r rs ih =>
    intro tlo thi xlo xhi ylo yhi zlo zhi
    rw [List.foldl_cons, tpointseq_expand_stbox_mm, ih]
    rfl

/-- The recomputed spatial box of a sequence with inclusive flags. -/
theorem recompute_spatial (g0 : SInstant) (grest : List SInstant) :
    tinstarr_compute_bbox_spatial (g0 :: grest) true true =
      ⟨⟨g0.t, (grest.getLastD g0).t, true, true⟩,
        grest.foldl (fun a i => min a i.x) g0.x,
        grest.foldl (fun a i => max a i.x) g0.x,
        grest.foldl (fun a i => min a i.y) g0.y,
        grest.foldl (fun a i => max a i.y) g0.y,
        grest.foldl (fun a i => min a i.z) g0.z,
        grest.foldl (fun a i => max a i.z) g0.z⟩ := by
  rw [tinstarr_compute_bbox_spatial, tpointinstarr_set_stbox]
  ext : 1
  · ext
    · rfl
    · show ((g0 :: grest).getLastD default).t = (grest.getLastD g0).t
      cases grest <;> rfl
    · rfl
    · rfl
  · rfl
  · rfl
  · rfl
  · rfl
  · rfl
  · rfl

/-- Incremental equals recompute for a spatial sequence built by appends. -/
theorem spatialSeqCached_eq_recompute (g0 : SInstant) (grest : List SInstant)
    (hg : List.Chain (fun a b : SInstant => a.t < b.t) g0 grest) :
    spatialSeqCached g0 grest =
      tinstarr_compute_bbox_spatial (g0 :: grest) true true := by
  have hseed : tinstarr_compute_bbox_spatial [g0] true true =
      ⟨⟨g0.t, g0.t, true, true⟩, g0.x, g0.x, g0.y, g0.y, g0.z, g0.z⟩ := rfl
  rw [spatialSeqCached, hseed, spatialSeqCached_fold, recompute_spatial]
  ext : 1
  · ext
    · exact chain_fold_min (fun i => i.t) grest g0 hg
    · exact chain_fold_max (fun i => i.t) grest g0 hg
    · rfl
    · rfl
  · rfl
  · rfl
  · rfl
  · rfl
  · rfl
  · rfl

/-- C4: for every payload category, a box maintained by incremental
expansion under successive appends equals the box of a full recompute over
the final content: number and alpha sequences built from a valid singleton
(inclusive flags, appends keeping the upper bound inclusive and timestamps
increasing), number and spatial sequence sets, and alpha sequence sets of
valid, time-disjoint ordered periods, and spatial sequences. -/
theorem C4_expand_equals_recompute (interp : interpType)
    (i0 : TInstant) (rest : List TInstant)
    (ht : List.Chain (fun a b : TInstant => a.t < b.t) i0 rest)
    (p0 : Span) (prest : List Span) (hp0 : spanValid p0)
    (hps : ∀ p ∈ prest, spanValid p) (hpc : List.Chain spanBefore p0 prest)
    (g0 : SInstant) (grest : List SInstant)
    (hg : List.Chain (fun a b : SInstant => a.t < b.t) g0 grest)
    (b0 : TBox) (brest : List TBox) (s0 : STBox) (srest : List STBox) :
    numSeqCached interp i0 rest =
      tinstarr_compute_bbox_num (i0 :: rest) true true interp ∧
    alphaSeqCached i0 rest = tinstarr_compute_bbox_alpha (i0 :: rest) true true ∧
    numSeqSetCached b0 brest = tnumberseqarr_set_tbox (b0 :: brest) ∧
    alphaSeqSetCached p0 prest = tseqarr_set_tstzspan (p0 :: prest) ∧
    spatialSeqCached g0 grest =
      tinstarr_compute_bbox_spatial (g0 :: grest) true true ∧
    spatialSeqSetCached s0 srest = tpointseqarr_set_stbox (s0 :: srest) :=
  ⟨numSeqCached_eq_recompute interp i0 rest ht,
    alphaSeqCached_eq_recompute i0 rest,
    numSeqSetCached_eq_recompute b0 brest,
    alphaSeqSetCached_eq_recompute prest p0 hp0 hps hpc,
    spatialSeqCached_eq_recompute g0 grest hg,
    spatialSeqSetCached_eq_recompute s0 srest⟩

/-- Witness for C4 at concrete appends in every category. -/
theorem C4_witness :
    List.Chain (fun a b : TInstant => a.t < b.t) ⟨0, 0⟩ [⟨5, 1⟩, ⟨2, 2⟩] ∧
    spanValid ⟨0, 1, true, true⟩ ∧
    (∀ p ∈ [(⟨2, 3, false, true⟩ : Span)], spanValid p) ∧
    List.Chain spanBefore ⟨0, 1, true, true⟩ [⟨2, 3, false, true⟩] ∧
    List.Chain (fun a b : SInstant => a.t < b.t) ⟨0, 0, 0, 0⟩ [⟨1, 2, 3, 4⟩] ∧
    numSeqCached interpType.LINEAR ⟨0, 0⟩ [⟨5, 1⟩, ⟨2, 2⟩] =
      tinstarr_compute_bbox_num [⟨0, 0⟩, ⟨5, 1⟩, ⟨2, 2⟩] true true
        interpType.LINEAR ∧
    alphaSeqCached ⟨0, 0⟩ [⟨5, 1⟩, ⟨2, 2⟩] =
      tinstarr_compute_bbox_alpha [⟨0, 0⟩, ⟨5, 1⟩, ⟨2, 2⟩] true true ∧
    numSeqSetCached ⟨⟨0, 1, true, true⟩, ⟨4, 7, true, true⟩, true, true⟩
        [⟨⟨2, 3, true, true⟩, ⟨1, 2, true, true⟩, true, true⟩] =
      tnumberseqarr_set_tbox
        [⟨⟨0, 1, true, true⟩, ⟨4, 7, true, true⟩, true, true⟩,
          ⟨⟨2, 3, true, true⟩, ⟨1, 2, true, true⟩, true, true⟩] ∧
    alphaSeqSetCached ⟨0, 1, true, true⟩ [⟨2, 3, false, true⟩] =
      tseqarr_set_tstzspan [⟨0, 1, true, true⟩, ⟨2, 3, false, true⟩] ∧
    spatialSeqCached ⟨0, 0, 0, 0⟩ [⟨1, 2, 3, 4⟩] =
      tinstarr_compute_bbox_spatial [⟨0, 0, 0, 0⟩, ⟨1, 2, 3, 4⟩] true true ∧
    spatialSeqSetCached ⟨⟨0, 1, true, true⟩, 0, 1, 0, 1, 0, 1⟩
        [⟨⟨2, 3, true, true⟩, 1, 2, 1, 2, 1, 2⟩] =
      tpointseqarr_set_stbox
        [⟨⟨0, 1, true, true⟩, 0, 1, 0, 1, 0, 1⟩,
          ⟨⟨2, 3, true, true⟩, 1, 2, 1, 2, 1, 2⟩] :=
  by
  have hchain1 : List.Chain (fun a b : TInstant => a.t < b.t) ⟨0, 0⟩
      [⟨5, 1⟩, ⟨2, 2⟩] :=
    List.Chain.cons (by decide) (List.Chain.cons (by decide) List.Chain.nil)
  have hv : spanValid ⟨0, 1, true, true⟩ := Or.inl (by decide)
  have hmem : ∀ p ∈ [(⟨2, 3, false, true⟩ : Span)], spanValid p := by
    intro p hp
    rw [List.mem_singleton] at hp
    subst hp
    exact Or.inl (by decide)
  have hbc : List.Chain spanBefore ⟨0, 1, true, true⟩ [⟨2, 3, false, true⟩] :=
    List.Chain.cons (Or.inl (by decide)) List.Chain.nil
  have hgc : List.Chain (fun a b : SInstant => a.t < b.t) ⟨0, 0, 0, 0⟩
      [⟨1, 2, 3, 4⟩] :=
    List.Chain.cons (by decide) List.Chain.nil
  exact ⟨hchain1, hv, hmem, hbc, hgc,
    C4_expand_equals_recompute interpType.LINEAR ⟨0, 0⟩ [⟨5, 1⟩, ⟨2, 2⟩] hchain1
      ⟨0, 1, true, true⟩ [⟨2, 3, false, true⟩] hv hmem hbc ⟨0, 0, 0, 0⟩
      [⟨1, 2, 3, 4⟩] hgc
      ⟨⟨0, 1, true, true⟩, ⟨4, 7, true, true⟩, true, true⟩
      [⟨⟨2, 3, true, true⟩, ⟨1, 2, true, true⟩, true, true⟩]
      ⟨⟨0, 1, true, true⟩, 0, 1, 0, 1, 0, 1⟩
      [⟨⟨2, 3, true, true⟩, 1, 2, 1, 2, 1, 2⟩]⟩
